import Mathlib

/-!
Verification of the Structured Entity Search & Relevance Ranking Engine of
`src/lib/search-properties-tool.js` (property-search variant).

The JavaScript source is shallowly embedded: JS numbers are modelled by `ℚ`
(the code never relies on float rounding in the embedded fragments), JS
`null`-able fields by `Option`, JS arrays by `List`.  Where the code applies
`Number(x)` to a possibly-`null` field, the JS coercion `Number(null) = 0`
is made explicit through `jsNum`.  The two genuinely numeric collaborator
computations that work on floats — the Haversine distance of
`calculateDistance` and the cosine similarity of embedding vectors — are
abstracted as function parameters (`Dist`, the per-candidate similarity),
exactly like the external collaborators (geocoder, embedding provider,
generative ranker) which are modelled by their input/output contracts.
-/

namespace PropSearch

/-- JS `Number(x)` on a field that is either a finite number or `null`:
`Number(null) = 0`. -/
def jsNum (v : Option ℚ) : ℚ := v.getD 0

/-- JS truthiness of a nullable number: `null`, `undefined` and `0` are falsy. -/
def truthyNum (v : Option ℚ) : Bool := match v with
  | some q => q ≠ 0
  | none => false

/-- JS truthiness of a nullable string: `null` and `""` are falsy. -/
def truthyStr (v : Option String) : Bool := match v with
  | some s => s ≠ ""
  | none => false

/-- `needle` occurs as a contiguous substring of `hay`
(JS `String.prototype.includes`). -/
def strContains (hay needle : String) : Bool :=
  (List.range (hay.data.length + 1)).any fun i =>
    needle.data.isPrefixOf (hay.data.drop i)

/-- ASCII lower-casing of one character (the catalog and criteria texts the
code lower-cases are ASCII). -/
def lowerChar (c : Char) : Char :=
  if 'A' ≤ c ∧ c ≤ 'Z' then Char.ofNat (c.toNat + 32) else c

/-- `String.prototype.toLowerCase`. -/
def toLowerStr (s : String) : String := String.mk (s.data.map lowerChar)

def isSpaceChar (ch : Char) : Bool :=
  ch = ' ' ∨ ch = '\t' ∨ ch = '\n' ∨ ch = '\r'

/-- `String.prototype.trim`. -/
def trimStr (s : String) : String :=
  String.mk (((s.data.dropWhile isSpaceChar).reverse.dropWhile isSpaceChar).reverse)

/-- Split a character list before each separator (JS `split` semantics:
`"".split` gives `[""]`, adjacent separators give empty fields). -/
def splitCharsList (sep : Char → Bool) : List Char → List (List Char)
  | [] => [[]]
  | c :: rest =>
    let r := splitCharsList sep rest
    if sep c then [] :: r
    else
      match r with
      | h :: t => (c :: h) :: t
      | [] => [[c]]

/-- Split a string at any of the given characters
(JS `str.split(/[,.;\n]/)` and friends). -/
def splitChars (s : String) (seps : List Char) : List String :=
  (splitCharsList (fun c => seps.contains c) s.data).map String.mk

/-- JS `str.split(sep)` for a one-character separator. -/
def splitOnCharStr (s : String) (sep : Char) : List String :=
  (splitCharsList (fun c => c == sep) s.data).map String.mk

/-- `normalizeList` of `buildStrictCandidates`, applied to an
already-array-shaped value: trim entries, drop empties, optionally lowercase. -/
def bscNormalizeList (value : List String) (lowercase : Bool) : List String :=
  let cleaned := (value.map trimStr).filter (fun s => s ≠ "")
  if lowercase then cleaned.map toLowerStr else cleaned

/-- `normalizeList` of `buildStrictCandidates` on a nullable
comma-separated-string value (the shape `searchPropertiesTool` delivers). -/
def bscNormalizeListStr (value : Option String) (lowercase : Bool) : List String :=
  match value with
  | none => []
  | some s => bscNormalizeList (splitOnCharStr s ',') lowercase

/-! ## Data model (`PropertyRecord` of the DatoCMS fragment) -/

structure DeveloperRec where
  fullName : Option String
  shortName : Option String
  slug : Option String
deriving DecidableEq, Repr

structure ProjectRec where
  name : Option String
  developer : Option DeveloperRec
deriving DecidableEq, Repr

structure GeoPoint where
  latitude : ℚ
  longitude : ℚ
deriving DecidableEq, Repr

structure UnitConfig where
  unitType : Option String
  configPrice : Option ℚ
  bedrooms : Option ℚ
  bathrooms : Option ℚ
  lotArea : Option ℚ
  unitFeatures : Option String
deriving DecidableEq, Repr

structure Listing where
  id : String
  name : Option String
  summary : Option String
  description : Option String
  locationName : Option String
  price : Option ℚ
  bedrooms : Option ℚ
  bathrooms : Option ℚ
  developer : Option DeveloperRec
  developerName : Option String
  project : Option ProjectRec
  projectName : Option String
  searchTags : List String
  secondaryTags : List String
  amenitiesAndCommonFacilities : Option String
  buildingAmenities : Option String
  unitFeatures : Option String
  location : Option GeoPoint
  unitConfiguration : List UnitConfig
  /-- models the `__distanceKm` tag attached by the geo-fallback pass -/
  distanceKm : Option ℚ
deriving DecidableEq, Repr

/-- Normalized search criteria as `searchPropertiesTool.execute` hands them to
`buildStrictCandidates`. -/
structure Criteria where
  query : String
  filter_location : Option String
  filter_ptype : Option String
  filter_developer : Option (List String)
  filter_project : Option (List String)
  must_have_amenities : Option (List String)
  min_price : Option ℚ
  max_price : Option ℚ
  min_bedrooms : Option ℚ
  max_bedrooms : Option ℚ
  min_bathrooms : Option ℚ
  max_bathrooms : Option ℚ
  sort_by : Option String
deriving DecidableEq, Repr

/-- Result of a successful geocode call
(`geocodeLocation` collaborator contract). -/
structure GeoResult where
  latitude : ℚ
  longitude : ℚ
  displayName : String
deriving DecidableEq, Repr

/-- The geocoding collaborator: `geocode(text) -> Coordinates | null`. -/
def Geocoder := String → Option GeoResult

/-- The great-circle distance computation (`calculateDistance`), abstracted
because the Haversine formula works on floating-point trigonometry. -/
def Dist := GeoPoint → GeoPoint → ℚ

/-! ## Numeric range filters -/

/-- The inner `meets` closure shared by the price/bedroom/bathroom filters. -/
def inRange (lo hi : Option ℚ) (v : ℚ) : Bool :=
  match lo, hi with
  | some a, some b => a ≤ v ∧ v ≤ b
  | some a, none => a ≤ v
  | none, some b => v ≤ b
  | none, none => true

/-- `unitPrices`: `prop.unitConfiguration.map(u => Number(u.configPrice))
.filter(Number.isFinite)`; a `null` `configPrice` coerces to `0`. -/
def unitPricesOf (p : Listing) : List ℚ :=
  p.unitConfiguration.map (fun u => jsNum u.configPrice)

/-- `propertyMeetsPrice`: unit prices take priority; the listing-level price
is consulted only when no unit price exists. -/
def propertyMeetsPrice (c : Criteria) (p : Listing) : Bool :=
  if c.min_price = none ∧ c.max_price = none then true
  else
    let ups := unitPricesOf p
    if ups ≠ [] then ups.any (inRange c.min_price c.max_price)
    else inRange c.min_price c.max_price (jsNum p.price)

/-- `propertyMeetsBedrooms`: listing-level OR any unit-level value. -/
def propertyMeetsBedrooms (c : Criteria) (p : Listing) : Bool :=
  if c.min_bedrooms = none ∧ c.max_bedrooms = none then true
  else
    let propMeets := inRange c.min_bedrooms c.max_bedrooms (jsNum p.bedrooms)
    let unitVals := p.unitConfiguration.map (fun u => jsNum u.bedrooms)
    propMeets || unitVals.any (inRange c.min_bedrooms c.max_bedrooms)

/-- `propertyMeetsBathrooms`: listing-level OR any unit-level value. -/
def propertyMeetsBathrooms (c : Criteria) (p : Listing) : Bool :=
  if c.min_bathrooms = none ∧ c.max_bathrooms = none then true
  else
    let propMeets := inRange c.min_bathrooms c.max_bathrooms (jsNum p.bathrooms)
    let unitVals := p.unitConfiguration.map (fun u => jsNum u.bathrooms)
    propMeets || unitVals.any (inRange c.min_bathrooms c.max_bathrooms)

/-! ## Word/regex helpers for the query-text checks

JS `\w` is `[A-Za-z0-9_]`; all tested strings are lower-cased first (the code
lower-cases the query and every pattern carries the `/i` flag). -/

def isWordChar (ch : Char) : Bool := ch.isAlphanum ∨ ch = '_'

def isLowerAZ (ch : Char) : Bool := 'a' ≤ ch ∧ ch ≤ 'z'

/-- `pat` occurs literally at index `i` of `cs`. -/
def matchesAt (cs : List Char) (i : ℕ) (pat : List Char) : Bool :=
  pat.isPrefixOf (cs.drop i)

/-- A `\b` word boundary sits just before index `i` (assuming a word
character follows there). -/
def boundaryBefore (cs : List Char) (i : ℕ) : Bool :=
  i == 0 || match cs.get? (i - 1) with
    | some ch => !isWordChar ch
    | none => true

/-- A `\b` word boundary sits just after index `i` (assuming a word
character precedes it). -/
def boundaryAfter (cs : List Char) (i : ℕ) : Bool :=
  match cs.get? i with
  | some ch => ¬isWordChar ch
  | none => true

/-- Length of the whitespace run at the front of the list. -/
def spaceRun : List Char → ℕ
  | [] => 0
  | c :: cs => if isSpaceChar c then spaceRun cs + 1 else 0

def charAt (cs : List Char) (i : ℕ) : Option Char := cs.get? i

def lowerAt (cs : List Char) (i : ℕ) : Bool :=
  match charAt cs i with
  | some ch => isLowerAZ ch
  | none => false

def digitAt (cs : List Char) (i : ℕ) : Bool :=
  match charAt cs i with
  | some ch => ch.isDigit
  | none => false

/-- `/\b(phrase)\b/` for a fixed list of literal alternatives whose first and
last characters are word characters (used for `bi[- ]?level`, `loft`,
`penthouse`, `studio`, `bachelor pad`). -/
def hasWordPhrase (s : String) (phrases : List String) : Bool :=
  let cs := s.data
  (List.range (cs.length + 1)).any fun i =>
    phrases.any fun ph =>
      boundaryBefore cs i ∧ matchesAt cs i ph.data ∧
        boundaryAfter cs (i + ph.data.length)

/-- Tail of the proximity pattern after a matched keyword ending at index
`p`: `\s+(?:to|from|of)?\s*[a-z]+`. -/
def proximityTail (cs : List Char) (p : ℕ) : Bool :=
  let n := spaceRun (cs.drop p)
  1 ≤ n ∧
    (lowerAt cs (p + n) ∨
      (["to", "from", "of"].any fun w =>
        matchesAt cs (p + n) w.data ∧
          lowerAt cs (p + n + w.data.length +
            spaceRun (cs.drop (p + n + w.data.length)))))

/-- `/\b(near|nearby|close to|within|proximity)\s+(?:to|from|of)?\s*[a-z]+/i`
on the lower-cased query. -/
def proximityKeywordMatch (s : String) : Bool :=
  let cs := s.data
  (List.range (cs.length + 1)).any fun i =>
    boundaryBefore cs i ∧
      (["near", "nearby", "close to", "within", "proximity"].any fun kw =>
        matchesAt cs i kw.data ∧ proximityTail cs (i + kw.data.length))

/-- The peso sign `₱`. -/
def pesoChar : Char := Char.ofNat 8369

/-- `/\baround\s*[₱$]|\baround\s*\d+[km]?/i`: `around` followed (through
optional whitespace) by a currency sign or a digit. -/
def hasPriceAround (s : String) : Bool :=
  let cs := s.data
  (List.range (cs.length + 1)).any fun i =>
    boundaryBefore cs i && matchesAt cs i "around".data &&
      (let p := i + 6
       let n := spaceRun (cs.drop p)
       match charAt cs (p + n) with
       | some ch => ch == pesoChar || ch == '$' || ch.isDigit
       | none => false)

/-- `/\baround\s+[a-z]+/i`. -/
def hasAroundWord (s : String) : Bool :=
  let cs := s.data
  (List.range (cs.length + 1)).any fun i =>
    boundaryBefore cs i ∧ matchesAt cs i "around".data ∧
      (let p := i + 6
       let n := spaceRun (cs.drop p)
       1 ≤ n ∧ lowerAt cs (p + n))

/-- `isNearbyQuery` of the fourth (geo-fallback) pass, computed from the
lower-cased `criteria.query`. -/
def isNearbyQuery (query : String) : Bool :=
  let q := toLowerStr query
  proximityKeywordMatch q ∨ (hasAroundWord q ∧ ¬hasPriceAround q)

/-! ## Property-type filter -/

def HOUSE_UNIT_TYPES : List String := ["house_and_lot"]

def CONDO_UNIT_TYPES : List String :=
  ["bedroom_unit", "studio_open_plan", "loft", "bi_level", "penthouse"]

/-- An apostrophe character, for the literal `bachelor's pad`. -/
def apos : String := String.mk [Char.ofNat 39]

def hasBiLevelQuery (q : String) : Bool :=
  hasWordPhrase q ["bilevel", "bi-level", "bi level"]

def hasLoftQuery (q : String) : Bool := hasWordPhrase q ["loft"]

def hasPenthouseQuery (q : String) : Bool := hasWordPhrase q ["penthouse"]

def hasStudioQuery (q : String) : Bool :=
  hasWordPhrase q ["studio", "bachelor pad", "bachelor" ++ apos ++ "s pad"]

/-- `propertyMeetsType`. -/
def propertyMeetsType (c : Criteria) (p : Listing) : Bool :=
  if ¬truthyStr c.filter_ptype then true
  else
    let desiredType := toLowerStr (c.filter_ptype.getD "")
    let unitTypes := p.unitConfiguration.map fun u => toLowerStr (u.unitType.getD "")
    let unitHasLotArea := p.unitConfiguration.any fun u =>
      match u.lotArea with
      | some a => a > 0
      | none => false
    let isHouseByUnits :=
      unitHasLotArea ∨ unitTypes.any (fun t => HOUSE_UNIT_TYPES.contains t)
    let isCondoByUnits := unitTypes.any (fun t => CONDO_UNIT_TYPES.contains t)
    let queryText := toLowerStr c.query
    if hasBiLevelQuery queryText then unitTypes.contains "bi_level"
    else if hasLoftQuery queryText then unitTypes.contains "loft"
    else if hasPenthouseQuery queryText then unitTypes.contains "penthouse"
    else if hasStudioQuery queryText then unitTypes.contains "studio_open_plan"
    else if desiredType = "house" then isHouseByUnits
    else if desiredType = "condo" then isCondoByUnits
    else true

/-! ## Developer / project / amenity / location filters -/

/-- Push a nullable string through `add` of `collectDeveloperTokens`:
lower-case, trim, drop falsy/empty. -/
def addToken (v : Option String) : List String :=
  match v with
  | none => []
  | some s =>
    if s = "" then []
    else
      let str := trimStr (toLowerStr s)
      if str = "" then [] else [str]

def collectDeveloperTokens (p : Listing) : List String :=
  (addToken (p.developer.bind (·.fullName)) ++
   addToken (p.developer.bind (·.shortName)) ++
   addToken (p.developer.bind (·.slug)) ++
   addToken p.developerName ++
   addToken ((p.project.bind (·.developer)).bind (·.fullName)) ++
   addToken ((p.project.bind (·.developer)).bind (·.shortName)) ++
   addToken ((p.project.bind (·.developer)).bind (·.slug))).eraseDups

def collectProjectTokens (p : Listing) : List String :=
  (addToken (p.project.bind (·.name)) ++
   addToken p.projectName ++
   addToken p.name).eraseDups

/-- `amenitySynonyms` lookup with the `filter.replace(/_/g, " ")` default. -/
def amenitySynonyms (f : String) : List String :=
  if f = "swimming_pool" then ["swimming pool", "pool"]
  else if f = "fitness_center" then ["fitness center", "gym"]
  else if f = "parking" then ["parking", "parking space", "parking slot", "car park"]
  else if f = "balcony" then ["balcony"]
  else if f = "security" then ["security", "24/7 security", "guarded"]
  else if f = "elevator" then ["elevator", "lift"]
  else if f = "clubhouse" then ["clubhouse"]
  else if f = "garden" then ["garden", "landscaped garden"]
  else if f = "rooftop_deck" then ["rooftop deck", "roof deck", "rooftop"]
  else if f = "pet_area" then ["pet area", "pet-friendly", "pet friendly"]
  else if f = "smart_home" then ["smart home", "smart-home"]
  else [String.mk (f.data.map fun c => if c = '_' then ' ' else c)]

/-- `addTokens` of `collectAmenityTokens` on one nullable text value:
lower-case, split at `,.;\n`, trim, drop empties. -/
def amenityTokensOf (v : Option String) : List String :=
  match v with
  | none => []
  | some s =>
    if s = "" then []
    else ((splitChars (toLowerStr s) [',', '.', ';', '\n']).map trimStr).filter
      (fun part => part ≠ "")

def collectAmenityTokens (p : Listing) : List String :=
  ((p.searchTags.map (fun t => amenityTokensOf (some t))).flatten ++
   (p.secondaryTags.map (fun t => amenityTokensOf (some t))).flatten ++
   amenityTokensOf p.amenitiesAndCommonFacilities ++
   amenityTokensOf p.buildingAmenities ++
   amenityTokensOf p.unitFeatures ++
   amenityTokensOf p.description ++
   amenityTokensOf p.summary ++
   (p.unitConfiguration.map (fun u => amenityTokensOf u.unitFeatures)).flatten).eraseDups

def propertyMeetsDeveloper (developerFilters : List String) (p : Listing) : Bool :=
  if developerFilters = [] then true
  else
    let tokens := collectDeveloperTokens p
    developerFilters.any fun f =>
      tokens.any fun token => strContains token f ∨ strContains f token

def propertyMeetsProject (projectFilters : List String) (p : Listing) : Bool :=
  if projectFilters = [] then true
  else
    let tokens := collectProjectTokens p
    projectFilters.any fun f =>
      tokens.any fun token => strContains token f ∨ strContains f token

def propertyHasRequiredAmenities (amenityFilters : List String) (p : Listing) : Bool :=
  if amenityFilters = [] then true
  else
    let tokens := collectAmenityTokens p
    amenityFilters.all fun f =>
      (amenitySynonyms f).any fun syn =>
        tokens.any fun token => strContains token syn.toLower

/-- The location/name/description composite text used both by the strict
location filter and by diversity grouping. -/
def candidateText (p : Listing) : String :=
  toLowerStr
    ((p.locationName.getD "") ++ " " ++
     ((p.project.bind (·.name)).getD "") ++ " " ++
     ((p.developer.bind (·.fullName)).getD "") ++ " " ++
     (p.name.getD ""))

def propertyTextContainsAnyLocation (p : Listing) (locations : List String) : Bool :=
  locations.any fun loc => strContains (candidateText p) loc

/-! ## Filter lists derived from the criteria -/

def developerFiltersOf (c : Criteria) : List String :=
  match c.filter_developer with
  | none => []
  | some l => bscNormalizeList l true

def projectFiltersOf (c : Criteria) : List String :=
  match c.filter_project with
  | none => []
  | some l => bscNormalizeList l true

def amenityFiltersOf (c : Criteria) : List String :=
  match c.must_have_amenities with
  | none => []
  | some l => bscNormalizeList l true

def locationTokensOf (c : Criteria) : List String :=
  bscNormalizeListStr c.filter_location true

/-! ## The four cascade passes -/

/-- Strict pass: every hard filter, including the text-location match when
location tokens are present. -/
def strictPred (c : Criteria) (ex : List String) (p : Listing) : Bool :=
  !(ex.contains p.id) &&
  propertyMeetsPrice c p &&
  propertyMeetsType c p &&
  propertyMeetsBedrooms c p &&
  propertyMeetsBathrooms c p &&
  propertyMeetsDeveloper (developerFiltersOf c) p &&
  propertyMeetsProject (projectFiltersOf c) p &&
  propertyHasRequiredAmenities (amenityFiltersOf c) p &&
  (locationTokensOf c == [] || propertyTextContainsAnyLocation p (locationTokensOf c))

/-- Amenity-relaxed pass: drop the amenity requirement, keep location strict. -/
def amenityRelaxedPred (c : Criteria) (ex : List String) (p : Listing) : Bool :=
  !(ex.contains p.id) &&
  propertyMeetsPrice c p &&
  propertyMeetsType c p &&
  propertyMeetsBedrooms c p &&
  propertyMeetsBathrooms c p &&
  propertyMeetsDeveloper (developerFiltersOf c) p &&
  propertyMeetsProject (projectFiltersOf c) p &&
  propertyTextContainsAnyLocation p (locationTokensOf c)

/-- Price-relaxed pass: drop price and amenities, keep location strict. -/
def priceRelaxedPred (c : Criteria) (ex : List String) (p : Listing) : Bool :=
  !(ex.contains p.id) &&
  propertyMeetsType c p &&
  propertyMeetsBedrooms c p &&
  propertyMeetsBathrooms c p &&
  propertyMeetsDeveloper (developerFiltersOf c) p &&
  propertyMeetsProject (projectFiltersOf c) p &&
  propertyTextContainsAnyLocation p (locationTokensOf c)

/-- The non-geo part of the geo-fallback pass condition: all hard filters
except the text-location match. -/
def geoBasePred (c : Criteria) (ex : List String) (p : Listing) : Bool :=
  !(ex.contains p.id) &&
  propertyMeetsPrice c p &&
  propertyMeetsType c p &&
  propertyMeetsBedrooms c p &&
  propertyMeetsBathrooms c p &&
  propertyMeetsDeveloper (developerFiltersOf c) p &&
  propertyMeetsProject (projectFiltersOf c) p &&
  propertyHasRequiredAmenities (amenityFiltersOf c) p

/-- `it.__distanceKm = distanceKm`. -/
def tagDist (p : Listing) (d : ℚ) : Listing := { p with distanceKm := some d }

/-- The geo-fallback pass body: keep filter-passing listings with truthy
coordinates within 100 km of the geocoded point, tagged with the distance. -/
def geoPass (dist : Dist) (c : Criteria) (ex : List String) (qc : GeoResult)
    (items : List Listing) : List Listing :=
  items.filterMap fun it =>
    if geoBasePred c ex it then
      match it.location with
      | some pt =>
        if pt.latitude ≠ 0 ∧ pt.longitude ≠ 0 then
          let d := dist ⟨qc.latitude, qc.longitude⟩ pt
          if d ≤ 100 then some (tagDist it d) else none
        else none
      | none => none
    else none

/-- First pass: the strict filter results. -/
def strictResults (c : Criteria) (ex : List String) (items : List Listing) :
    List Listing :=
  items.filter (strictPred c ex)

/-- Second pass (amenity-relaxed), with its gating condition. -/
def amenityRelaxedResults (c : Criteria) (ex : List String)
    (items : List Listing) : List Listing :=
  if locationTokensOf c ≠ [] ∧ strictResults c ex items = [] ∧
      amenityFiltersOf c ≠ [] then
    items.filter (amenityRelaxedPred c ex)
  else []

/-- Third pass (price-relaxed), gated on a closed price range. -/
def priceRelaxedResults (c : Criteria) (ex : List String)
    (items : List Listing) : List Listing :=
  if locationTokensOf c ≠ [] ∧
      strictResults c ex items ++ amenityRelaxedResults c ex items = [] ∧
      c.min_price ≠ none ∧ c.max_price ≠ none then
    items.filter (priceRelaxedPred c ex)
  else []

/-- Fourth pass (geo fallback), gated on proximity intent and a geocoded
point. -/
def geoResults (dist : Dist) (c : Criteria) (ex : List String)
    (qc : Option GeoResult) (items : List Listing) : List Listing :=
  match qc with
  | some coords =>
    if locationTokensOf c ≠ [] ∧
        strictResults c ex items ++ amenityRelaxedResults c ex items ++
          priceRelaxedResults c ex items = [] ∧
        isNearbyQuery c.query then
      geoPass dist c ex coords items
    else []
  | none => []

/-- The cascade of decreasing strictness: each later pass only contributes
when everything before it produced nothing. -/
def cascadeCandidates (dist : Dist) (c : Criteria) (ex : List String)
    (qc : Option GeoResult) (items : List Listing) : List Listing :=
  strictResults c ex items ++ amenityRelaxedResults c ex items ++
    priceRelaxedResults c ex items ++ geoResults dist c ex qc items

/-! ## Dedup, sort, diversity, cap -/

def dedupByIdGo (seen : List String) : List Listing → List Listing
  | [] => []
  | x :: xs =>
    if seen.contains x.id then dedupByIdGo seen xs
    else x :: dedupByIdGo (x.id :: seen) xs

/-- Dedupe by id, keeping first occurrences. -/
def dedupById (l : List Listing) : List Listing := dedupByIdGo [] l

def minQ : List ℚ → Option ℚ
  | [] => none
  | x :: xs => some (xs.foldl min x)

def maxQ : List ℚ → Option ℚ
  | [] => none
  | x :: xs => some (xs.foldl max x)

/-- Ascending sort key: unit-level minimum when present, else
`a.price || Infinity` (`none` stands for `Infinity`). -/
def ascKey (p : Listing) : Option ℚ :=
  match minQ (unitPricesOf p) with
  | some m => some m
  | none => if truthyNum p.price then p.price else none

/-- Descending sort key: unit-level maximum when present, else `a.price || 0`. -/
def descKey (p : Listing) : ℚ :=
  match maxQ (unitPricesOf p) with
  | some m => m
  | none => jsNum p.price

/-- Comparator for ascending price sort (`none` is `Infinity`). -/
def ascLeB (a b : Listing) : Bool :=
  match ascKey a, ascKey b with
  | _, none => true
  | none, some _ => false
  | some x, some y => decide (x ≤ y)

def ascLe (a b : Listing) : Prop := ascLeB a b = true

instance : DecidableRel ascLe := fun a b =>
  instDecidableEqBool (ascLeB a b) true

/-- Comparator for descending price sort. -/
def descGeB (a b : Listing) : Bool := decide (descKey b ≤ descKey a)

def descGe (a b : Listing) : Prop := descGeB a b = true

instance : DecidableRel descGe := fun a b =>
  instDecidableEqBool (descGeB a b) true

/-- `deduped.sort(...)` by the requested price direction (JS `Array.sort` is
a comparison sort; insertion sort models it — all claims below are
order-insensitive or sort-free). -/
def applySort (c : Criteria) (l : List Listing) : List Listing :=
  if c.sort_by = some "price_asc" then l.insertionSort ascLe
  else if c.sort_by = some "price_desc" then l.insertionSort descGe
  else l

/-- First requested location token whose text occurs in the candidate's
composite text (`break` after the first match). -/
def firstMatchTok (tokens : List String) (p : Listing) : Option String :=
  tokens.find? fun loc => strContains (candidateText p) loc

/-- The group of candidates assigned to token `t`. -/
def groupFor (tokens : List String) (deduped : List Listing) (t : String) :
    List Listing :=
  deduped.filter fun p => firstMatchTok tokens p == some t

/-- Round one of diversity balancing, iterating the groups with the list of
already-picked candidates. -/
def buildRepsGo (limit : ℕ) (acc : List Listing) :
    List (List Listing) → List Listing
  | [] => acc
  | g :: gs =>
    buildRepsGo limit
      (match g with
       | [] => acc
       | x :: _ =>
         if acc.length < limit ∧ ¬(acc.map (·.id)).contains x.id then
           acc ++ [x]
         else acc)
      gs

/-- Round one of diversity balancing: the best (first) candidate of each
non-empty group. -/
def buildReps (limit : ℕ) (groups : List (List Listing)) : List Listing :=
  buildRepsGo limit [] groups

/-- Round two: fill remaining slots from the overall order, skipping ids
already chosen. -/
def fillUp (limit : ℕ) (acc : List Listing) : List Listing → List Listing
  | [] => acc
  | x :: xs =>
    if limit ≤ acc.length then acc
    else if (acc.map (·.id)).contains x.id then fillUp limit acc xs
    else fillUp limit (acc ++ [x]) xs

/-- The location-diversity balancing step. -/
def diversityStep (c : Criteria) (limit : ℕ) (deduped : List Listing) :
    List Listing :=
  let tokens := locationTokensOf c
  if 1 < tokens.length ∧ deduped ≠ [] then
    let utoks := tokens.eraseDups
    let groups := utoks.map (groupFor tokens deduped)
    let nonemptyGroups := (groups.filter (fun g => g ≠ [])).length
    if 1 < nonemptyGroups ∧ tokens.length ≤ limit then
      let diverse := fillUp limit (buildReps limit groups) deduped
      if tokens.length ≤ diverse.length then diverse else deduped
    else deduped
  else deduped

/-! ## Slim projection -/

structure Slim where
  id : String
  name : String
  locationName : String
  price : Option ℚ
  minUnitPrice : Option ℚ
  maxUnitPrice : Option ℚ
  bedrooms : Option ℚ
  bathrooms : Option ℚ
  developer : Option String
  unitTypeSummary : List String
  amenitiesTags : List String
  distanceKm : Option ℚ
  /-- pre-computed content embedding carried by rerank candidates -/
  embedding : Option (List ℚ)
deriving DecidableEq, Repr

/-- JS `a || b || null` on nullable strings. -/
def jsOrStr (a b : Option String) : Option String :=
  if truthyStr a then a else if truthyStr b then b else none

def slimOf (p : Listing) : Slim :=
  { id := p.id
    name := p.name.getD ""
    locationName := p.locationName.getD ""
    price := some (jsNum p.price)
    minUnitPrice := minQ (unitPricesOf p)
    maxUnitPrice := maxQ (unitPricesOf p)
    bedrooms := some (jsNum p.bedrooms)
    bathrooms := some (jsNum p.bathrooms)
    developer :=
      jsOrStr (p.developer.bind (·.fullName))
        (((p.project.bind (·.developer)).bind (·.shortName)))
    unitTypeSummary :=
      (((p.unitConfiguration.map fun u => toLowerStr (u.unitType.getD "")).filter
        (fun t => t ≠ ""))).eraseDups
    amenitiesTags := ((p.searchTags ++ p.secondaryTags).take 8).map
      (fun t => String.mk (t.data.take 100))
    distanceKm := p.distanceKm
    embedding := none }

/-! ## The full filter pipeline (`buildStrictCandidates`) -/

/-- The single geocoding argument: first comma-component of
`criteria.filter_location`, trimmed; `none` when absent or empty. -/
def firstLocationOf (c : Criteria) : Option String :=
  match c.filter_location with
  | none => none
  | some s =>
    if s ≠ "" then
      let f := trimStr ((splitOnCharStr s ',').headD "")
      if f ≠ "" then some f else none
    else none

structure PipelineOut where
  /-- deduped, sorted, diversity-balanced, capped candidates (pre-slim) -/
  capped : List Listing
  referenceLocation : Option String
  /-- queries issued to the geocoding collaborator -/
  geocodeRequests : List String
deriving DecidableEq, Repr

/-- `buildStrictCandidates` up to (and including) the cap, before the slim
projection. -/
def filterPipeline (dist : Dist) (geocode : Geocoder) (items : List Listing)
    (c : Criteria) (ex : List String) (limit : ℕ) : PipelineOut :=
  let qc := (firstLocationOf c).bind geocode
  let cand := cascadeCandidates dist c ex qc items
  let deduped := dedupById cand
  let sorted := applySort c deduped
  let diversified := diversityStep c limit sorted
  let K := min limit 12
  { capped := diversified.take K
    referenceLocation := qc.map (·.displayName)
    geocodeRequests :=
      match firstLocationOf c with
      | some f => [f]
      | none => [] }

/-- `buildStrictCandidates`: slim candidates plus the reference location. -/
def buildStrictCandidates (dist : Dist) (geocode : Geocoder)
    (items : List Listing) (c : Criteria) (ex : List String) (limit : ℕ) :
    List Slim × Option String :=
  let out := filterPipeline dist geocode items c ex limit
  (out.capped.map slimOf, out.referenceLocation)

/-! ## Criteria normalization (`searchPropertiesTool.execute`, lines 1122-1473)

Raw numeric fields are loosely typed (number, non-finite number, string or
`null`); `JsVal` captures those shapes. -/

inductive JsVal where
  | null
  | num (q : ℚ)
  /-- a `number`-typed value that is `NaN` or `±Infinity` -/
  | nonFinite
  | str (s : String)
deriving DecidableEq, Repr

def digitsVal (cs : List Char) : ℕ :=
  cs.foldl (fun acc c => acc * 10 + (c.toNat - 48)) 0

/-- JS `Number(s)` on a string containing only `[0-9.-]` characters. -/
def parseJsNumber (s : String) : Option ℚ :=
  let cs := s.data
  let neg := cs.headD ' ' = '-'
  let rest := if neg then cs.drop 1 else cs
  if rest.contains '-' then none
  else
    match splitCharsList (fun c => c == '.') rest with
    | [intPart] =>
      if intPart ≠ [] ∧ intPart.all Char.isDigit then
        some ((if neg then -1 else 1) * (digitsVal intPart : ℚ))
      else none
    | [intPart, fracPart] =>
      if (intPart ++ fracPart) ≠ [] ∧ (intPart ++ fracPart).all Char.isDigit then
        some ((if neg then -1 else 1) *
          ((digitsVal intPart : ℚ) +
            (digitsVal fracPart : ℚ) / (10 : ℚ) ^ fracPart.length))
      else none
    | _ => none

/-- `sanitizeNumber`: numbers pass through when finite, strings are stripped
to `[0-9.-]` and parsed, everything else degrades to `null`. -/
def sanitizeNumber (v : JsVal) : Option ℚ :=
  match v with
  | .null => none
  | .num q => some q
  | .nonFinite => none
  | .str s =>
    let cleaned := String.mk (s.data.filter fun c =>
      c.isDigit || c == '.' || c == '-')
    if cleaned = "" ∨ cleaned = "-" ∨ cleaned = "." then none
    else parseJsNumber cleaned

/-- `normalizeRange` (lines 1316-1331) on already-sanitized bounds: negative
bounds clear both and win over inversion; `min > max` clears both with
`MIN_GREATER_THAN_MAX`. -/
def normalizeRangeN (minv maxv : Option ℚ) (negativeKey : String) :
    Option ℚ × Option ℚ × Option String :=
  let neg : Bool :=
    (match minv with | some a => decide (a < 0) | none => false) ||
    (match maxv with | some b => decide (b < 0) | none => false)
  let m1 : Option ℚ := if neg then none else minv
  let m2 : Option ℚ := if neg then none else maxv
  let iss : Option String := if neg then some negativeKey else none
  let inverted : Bool := match m1, m2 with
    | some a, some b => decide (b < a)
    | _, _ => false
  if inverted then (none, none, iss <|> some "MIN_GREATER_THAN_MAX")
  else (m1, m2, iss)

/-- `detectPriceOutlier` (lines 1373-1378). -/
def detectPriceOutlier (v : Option ℚ) : Option String :=
  match v with
  | none => none
  | some q =>
    if q < 100000 then some "TOO_LOW"
    else if q > 200000000 then some "TOO_HIGH"
    else none

structure RawFlags where
  needsClarification : Bool
  clarificationReason : Option String
  clarificationOptions : List String
  unrealisticPrice : Bool
  priceOutlier : Option String
  rangeIssue : Option String
  softNotes : List String
deriving DecidableEq, Repr

/-- The analyzer-flag defaults (`defaultFlags`). -/
def defaultFlags : RawFlags :=
  { needsClarification := false
    clarificationReason := none
    clarificationOptions := []
    unrealisticPrice := false
    priceOutlier := none
    rangeIssue := none
    softNotes := [] }

/-- Raw criteria as handed to `searchPropertiesTool.execute` (flattened
shape; the analyzer envelope only re-routes the same fields). -/
structure RawCriteria where
  query : Option String
  filter_location : Option (List String)
  filter_ptype : Option String
  filter_developer : Option (List String)
  filter_project : Option (List String)
  must_have_amenities : Option (List String)
  soft_requirements : Option (List String)
  min_price : JsVal
  max_price : JsVal
  min_bedrooms : JsVal
  max_bedrooms : JsVal
  min_bathrooms : JsVal
  max_bathrooms : JsVal
  requested_count : JsVal
  sort_by : Option String
  excludedPropertyIds : List String
  flags : RawFlags
deriving Repr

/-- `normalizeString`: trim, `null` when empty. -/
def normalizeStringOpt (v : Option String) : Option String :=
  match v with
  | none => none
  | some s => if trimStr s ≠ "" then some (trimStr s) else none

/-- The tool-level `normalizeList`: trim entries, drop empties, `null` for an
empty result. -/
def toolNormalizeList (v : Option (List String)) (lowercase : Bool) :
    Option (List String) :=
  match v with
  | none => none
  | some l =>
    let cleaned := (l.filterMap fun s => normalizeStringOpt (some s))
    if cleaned = [] then none
    else some (if lowercase then cleaned.map toLowerStr else cleaned)

/-- JS `Math.round`: half away from zero is half towards `+∞`. -/
def jsRound (q : ℚ) : ℤ := ⌊q + 1 / 2⌋

structure Normalized where
  criteria : Criteria
  flags : RawFlags
  excludedIds : List String
  softRequirements : Option (List String)
  limit : ℕ
deriving Repr

/-- The normalization stage of `searchPropertiesTool.execute` (lines
1212-1409), producing the criteria handed to `buildStrictCandidates`, the
updated analyzer flags, the exclusion set and the capped limit. -/
def normalizeCriteria (raw : RawCriteria) : Normalized :=
  let query := (normalizeStringOpt raw.query).getD ""
  let filter_location :=
    (toolNormalizeList raw.filter_location false).map (String.intercalate ", ")
  let minp := sanitizeNumber raw.min_price
  let maxp := sanitizeNumber raw.max_price
  let bed := normalizeRangeN (sanitizeNumber raw.min_bedrooms)
    (sanitizeNumber raw.max_bedrooms) "NEGATIVE_BEDROOMS"
  let bath := normalizeRangeN (sanitizeNumber raw.min_bathrooms)
    (sanitizeNumber raw.max_bathrooms) "NEGATIVE_BATHROOMS"
  let rangeIssue :=
    if truthyStr raw.flags.rangeIssue then raw.flags.rangeIssue
    else bed.2.2 <|> bath.2.2
  let rc := sanitizeNumber raw.requested_count
  let rcRounded : Option ℤ :=
    match rc with
    | some q => if 0 < q then some (jsRound q) else none
    | none => none
  let sort_by :=
    if raw.sort_by = some "price_asc" ∨ raw.sort_by = some "price_desc" then
      raw.sort_by
    else none
  let priceOutlier :=
    if truthyStr raw.flags.priceOutlier then raw.flags.priceOutlier
    else detectPriceOutlier minp <|> detectPriceOutlier maxp
  let clearPrices := truthyStr priceOutlier
  let flags : RawFlags :=
    { needsClarification := raw.flags.needsClarification
      clarificationReason := raw.flags.clarificationReason
      clarificationOptions :=
        (toolNormalizeList (some raw.flags.clarificationOptions) false).getD []
      unrealisticPrice :=
        if clearPrices then true else raw.flags.unrealisticPrice
      priceOutlier := priceOutlier
      rangeIssue := rangeIssue
      softNotes := (toolNormalizeList (some raw.flags.softNotes) false).getD [] }
  let limit : ℕ :=
    (min (max 1 (match rcRounded with
      | some n => if n = 0 then 3 else n
      | none => 3)) 10).toNat
  { criteria :=
      { query := query
        filter_location := filter_location
        filter_ptype := normalizeStringOpt raw.filter_ptype
        filter_developer := toolNormalizeList raw.filter_developer false
        filter_project := toolNormalizeList raw.filter_project false
        must_have_amenities := toolNormalizeList raw.must_have_amenities true
        min_price := if clearPrices then none else minp
        max_price := if clearPrices then none else maxp
        min_bedrooms := bed.1
        max_bedrooms := bed.2.1
        min_bathrooms := bath.1
        max_bathrooms := bath.2.1
        sort_by := sort_by }
    flags := flags
    excludedIds := raw.excludedPropertyIds.eraseDups
    softRequirements := toolNormalizeList raw.soft_requirements true
    limit := limit }

/-- The short-circuit decision of `searchPropertiesTool.execute` (lines
1412-1473), in source order; `none` means the search proceeds to
`buildStrictCandidates`. -/
def searchDecide (n : Normalized) : Option String :=
  if n.criteria.query = "NOT_REAL_ESTATE" then some "NOT_REAL_ESTATE_QUERY"
  else if n.criteria.query = "INVALID_PROPERTY_TYPE" then
    some "INVALID_PROPERTY_TYPE_QUERY"
  else if n.criteria.query = "UNREALISTIC_DESCRIPTION" then
    some "UNREALISTIC_DESCRIPTION_QUERY"
  else if n.flags.needsClarification then some "NEEDS_CLARIFICATION"
  else if n.flags.unrealisticPrice then some "UNREALISTIC_PRICE_QUERY"
  else if truthyStr n.flags.rangeIssue then some "INVALID_RANGE_QUERY"
  else none

inductive SearchOutput where
  /-- `{results: [], message}` — no filtering performed -/
  | empty (message : String) (flags : Option RawFlags)
  /-- `{candidates, referenceLocation, flags, requestedCount}` -/
  | results (candidates : List Slim) (referenceLocation : Option String)
      (flags : RawFlags) (requestedCount : ℕ)
deriving DecidableEq, Repr

/-- `searchPropertiesTool.execute`: normalize, short-circuit on sentinel
queries and blocking flags, otherwise filter the catalog. -/
def searchExecute (dist : Dist) (geocode : Geocoder) (raw : RawCriteria)
    (catalog : List Listing) : SearchOutput :=
  let n := normalizeCriteria raw
  match searchDecide n with
  | some m =>
    .empty m
      (if m = "NOT_REAL_ESTATE_QUERY" ∨ m = "INVALID_PROPERTY_TYPE_QUERY" ∨
          m = "UNREALISTIC_DESCRIPTION_QUERY" then none else some n.flags)
  | none =>
    let r := buildStrictCandidates dist geocode catalog n.criteria
      n.excludedIds n.limit
    .results r.1 r.2 n.flags n.limit

/-! ## Ranking (`rankByEmbeddings`, `rerankPropertiesTool.execute`)

The embedding provider and its cosine similarity work on floating-point
vectors; they are abstracted as the per-candidate similarity list `sims`
(`none` models a failed provider call — query embedding or property
embeddings returned `null`). -/

structure RankOutcome where
  orderedIds : List String
  reasonsById : List (String × String)
  scoresById : List (String × ℚ)
deriving DecidableEq, Repr

/-- The criteria fields `rankByEmbeddings` reads
(`criteria.apiSearchParams || criteria`). -/
structure RankParams where
  query : Option String
  filter_location : Option String
  min_bedrooms : Option ℚ
  filter_ptype : Option String
  must_have_amenities : Option (List String)
  max_price : Option ℚ
deriving DecidableEq, Repr

/-- Decimal digits of a natural number (fuel-driven so the kernel reduces it). -/
def natDigitsAux : ℕ → ℕ → List Char
  | 0, _ => []
  | fuel + 1, n =>
    if n = 0 then []
    else natDigitsAux fuel (n / 10) ++ [Char.ofNat (48 + n % 10)]

def natRender (n : ℕ) : String :=
  if n = 0 then "0" else String.mk (natDigitsAux (n + 1) n)

/-- JS template-literal rendering of a nullable number (`null` prints as
`"null"`).  Fractions render as `num/den` here; the exact digit format of JS
number printing is never the subject of a claim. -/
def renderOptQ (v : Option ℚ) : String :=
  match v with
  | some q =>
    (if q < 0 then "-" else "") ++ natRender q.num.natAbs ++
      (if q.den = 1 then "" else "/" ++ natRender q.den)
  | none => "null"

/-- The query text composed from present criteria fields, with the generic
`properties` fallback. -/
def embeddingQueryText (params : RankParams) : String :=
  let parts : List String :=
    (if truthyStr params.query then [params.query.getD ""] else []) ++
    (if truthyStr params.filter_location then
      ["in " ++ params.filter_location.getD ""] else []) ++
    (if truthyNum params.min_bedrooms then
      [renderOptQ params.min_bedrooms ++ " bedroom"] else []) ++
    (if truthyStr params.filter_ptype then [params.filter_ptype.getD ""] else [])
  let parts :=
    if parts = [] then
      ["properties"] ++
        (match params.must_have_amenities with
         | some l => if l ≠ [] then ["with amenities"] else []
         | none => [])
    else parts
  String.intercalate " " parts

/-- The per-candidate reason string of the embedding strategy. -/
def embeddingReason (params : RankParams) (c : Slim) (sim : ℚ) : String :=
  let locPart : List String :=
    if truthyStr params.filter_location ∧
        strContains c.locationName (params.filter_location.getD "") then
      ["Located in " ++ params.filter_location.getD ""]
    else if truthyNum c.distanceKm then
      [renderOptQ c.distanceKm ++ "km from your search area"]
    else if c.locationName ≠ "" then ["In " ++ c.locationName]
    else []
  let bedPart : List String :=
    if params.min_bedrooms = c.bedrooms then
      [renderOptQ c.bedrooms ++ "-bedroom as requested"]
    else if truthyNum c.bedrooms then [renderOptQ c.bedrooms ++ "-bedroom unit"]
    else []
  let budgetPart : List String :=
    if truthyNum params.max_price ∧ truthyNum c.price then
      let r := jsNum c.price / jsNum params.max_price
      if r ≤ 8 / 10 then ["excellent value"]
      else if r ≤ 1 then ["within budget"]
      else []
    else []
  let devPart : List String :=
    match c.developer with
    | some d => if d ≠ "" then ["by " ++ d] else []
    | none => []
  let reasonParts := locPart ++ bedPart ++ budgetPart ++ devPart
  if 2 ≤ reasonParts.length then
    String.intercalate ", " (reasonParts.take 3)
  else if 8 / 10 < sim then
    "Excellent match: " ++ String.intercalate ", " reasonParts
  else if 6 / 10 < sim then
    "Great option: " ++ String.intercalate ", " reasonParts
  else "Quality property: " ++ String.intercalate ", " reasonParts

structure ScoredEntry where
  id : String
  score : ℚ
  similarity : ℚ
  reason : String
deriving DecidableEq, Repr

def bySimDescB (a b : ScoredEntry) : Bool := decide (b.similarity ≤ a.similarity)

def bySimDesc (a b : ScoredEntry) : Prop := bySimDescB a b = true

instance : DecidableRel bySimDesc := fun a b =>
  instDecidableEqBool (bySimDescB a b) true

/-- One scored entry per candidate, in candidate order. -/
def embedEntries (cands : List Slim) (params : RankParams) (s : List ℚ) :
    List ScoredEntry :=
  cands.enum.map fun pr =>
    { id := pr.2.id
      score := (jsRound (50 + s.getD pr.1 0 * 50) : ℤ)
      similarity := s.getD pr.1 0
      reason := embeddingReason params pr.2 (s.getD pr.1 0) }

/-- `rankByEmbeddings`: score every candidate by similarity, sort
descending, and return the ordered ids with score and reason maps. -/
def rankByEmbeddings (cands : List Slim) (params : RankParams)
    (sims : Option (List ℚ)) : Option RankOutcome :=
  let queryText := embeddingQueryText params
  if trimStr queryText = "" then none
  else
    match sims with
    | none => none
    | some s =>
      let sorted := (embedEntries cands params s).insertionSort bySimDesc
      some
        { orderedIds := sorted.map (·.id)
          reasonsById := sorted.map fun e => (e.id, e.reason)
          scoresById := sorted.map fun e => (e.id, e.score) }

/-! ### The LLM ranking stage -/

/-- The JSON shape extracted from the generative ranker's reply;
`orderedIds = none` models a missing or non-array `orderedIds` field. -/
structure ParsedRank where
  orderedIds : Option (List String)
  reasonsById : List (String × String)
  scoresById : List (String × ℚ)
deriving DecidableEq, Repr

/-- Outcome of parsing the LLM reply after code-fence stripping. -/
inductive LlmReply where
  /-- `JSON.parse` succeeded on the whole reply -/
  | ok (p : ParsedRank)
  /-- `JSON.parse` threw, but a braced substring parsed -/
  | extracted (p : ParsedRank)
  /-- `JSON.parse` threw and no braced substring parsed -/
  | unparseable
deriving DecidableEq, Repr

/-- The LLM branch of `rerankPropertiesTool.execute` (lines 1767-1830):
validate only that `orderedIds` is an array, substituting the identity order
otherwise. -/
def llmStage (cands : List Slim) (reply : LlmReply) : RankOutcome :=
  match reply with
  | .ok p =>
    match p.orderedIds with
    | some ids =>
      { orderedIds := ids
        reasonsById := p.reasonsById
        scoresById := p.scoresById }
    | none =>
      { orderedIds := cands.map (·.id)
        reasonsById := p.reasonsById
        scoresById := p.scoresById }
  | .extracted p =>
    match p.orderedIds with
    | some ids =>
      { orderedIds := ids
        reasonsById := p.reasonsById
        scoresById := p.scoresById }
    | none =>
      { orderedIds := cands.map (·.id)
        reasonsById := []
        scoresById := [] }
  | .unparseable =>
    { orderedIds := cands.map (·.id)
      reasonsById := []
      scoresById := [] }

/-- `rerankPropertiesTool.execute`: embedding strategy for 4-10 candidates,
LLM strategy otherwise or on embedding failure. -/
def rerankExecute (cands : List Slim) (params : RankParams)
    (sims : Option (List ℚ)) (reply : LlmReply) : RankOutcome :=
  if 4 ≤ cands.length ∧ cands.length ≤ 10 then
    match rankByEmbeddings cands params sims with
    | some r => r
    | none => llmStage cands reply
  else llmStage cands reply

/-! ## Base concrete values for witnesses and counterexamples -/

def baseListing : Listing :=
  { id := "p0"
    name := none
    summary := none
    description := none
    locationName := none
    price := none
    bedrooms := none
    bathrooms := none
    developer := none
    developerName := none
    project := none
    projectName := none
    searchTags := []
    secondaryTags := []
    amenitiesAndCommonFacilities := none
    buildingAmenities := none
    unitFeatures := none
    location := none
    unitConfiguration := []
    distanceKm := none }

def baseUnit : UnitConfig :=
  { unitType := none
    configPrice := none
    bedrooms := none
    bathrooms := none
    lotArea := none
    unitFeatures := none }

def baseCriteria : Criteria :=
  { query := ""
    filter_location := none
    filter_ptype := none
    filter_developer := none
    filter_project := none
    must_have_amenities := none
    min_price := none
    max_price := none
    min_bedrooms := none
    max_bedrooms := none
    min_bathrooms := none
    max_bathrooms := none
    sort_by := none }

def baseRaw : RawCriteria :=
  { query := none
    filter_location := none
    filter_ptype := none
    filter_developer := none
    filter_project := none
    must_have_amenities := none
    soft_requirements := none
    min_price := .null
    max_price := .null
    min_bedrooms := .null
    max_bedrooms := .null
    min_bathrooms := .null
    max_bathrooms := .null
    requested_count := .null
    sort_by := none
    excludedPropertyIds := []
    flags := defaultFlags }

def baseParams : RankParams :=
  { query := none
    filter_location := none
    min_bedrooms := none
    filter_ptype := none
    must_have_amenities := none
    max_price := none }

def baseSlim : Slim :=
  { id := "s0"
    name := ""
    locationName := ""
    price := none
    minUnitPrice := none
    maxUnitPrice := none
    bedrooms := none
    bathrooms := none
    developer := none
    unitTypeSummary := []
    amenitiesTags := []
    distanceKm := none
    embedding := none }

/-- A distance function that reports no listing as nearby (for inputs where
the geo pass is irrelevant). -/
def farDist : Dist := fun _ _ => 1000

/-- A geocoder that always fails. -/
def noGeo : Geocoder := fun _ => none

/-! ## Concrete inputs for the claim theorems, their witnesses and counterexamples -/

/-- Modelled from the spec: "a listing matches a numeric-range filter if the
listing-level value OR any unit variant's value satisfies it (OR-over-units
semantics)"; an inactive filter (both bounds absent) accepts everything. -/
def specOrOverUnits (lo hi : Option ℚ) (v : ℚ) (unitVals : List ℚ) : Bool :=
  decide (lo = none ∧ hi = none) || inRange lo hi v ||
    unitVals.any (inRange lo hi)

/-- Price range ₱1M-₱10M; the listing price ₱5M satisfies it, the sole unit
price ₱20M does not. -/
def C1crit : Criteria :=
  { baseCriteria with min_price := some 1000000, max_price := some 10000000 }

def C1listing : Listing :=
  { baseListing with
    id := "a"
    price := some 5000000
    unitConfiguration := [{ baseUnit with configPrice := some 20000000 }] }

/-- `min_price = 5,000,000 > max_price = 3,000,000`, both parseable,
non-negative and inside the realistic-price thresholds. -/
def C3raw : RawCriteria :=
  { baseRaw with min_price := .num 5000000, max_price := .num 3000000 }

/-- The scenario criteria `{min_price: 50, max_price: 100}`. -/
def C5raw : RawCriteria :=
  { baseRaw with min_price := .num 50, max_price := .num 100 }

def C2slimA : Slim := { baseSlim with id := "a" }

def C2slimB : Slim := { baseSlim with id := "b" }

/-- An LLM reply whose `orderedIds` is an array but not a permutation of the
candidate ids, with no score or reason entries. -/
def C2reply : LlmReply := .ok ⟨some ["zzz"], [], []⟩

/-- A criteria with two location tokens, and two geocoders that agree on the
first token `Cavite` but disagree everywhere else. -/
def C10crit : Criteria :=
  { baseCriteria with filter_location := some "Cavite, Taguig" }

def C10geo1 : Geocoder := fun s =>
  if s = "Cavite" then some ⟨14, 120, "Cavite, PH"⟩ else some ⟨9, 9, "other"⟩

def C10geo2 : Geocoder := fun s =>
  if s = "Cavite" then some ⟨14, 120, "Cavite, PH"⟩ else none

/-- A catalog/criteria pair on which the strict pass already succeeds. -/
def C4listing : Listing := { baseListing with id := "w" }

/-- The concrete geo scenario: query with proximity intent, a geocoded
point, and a listing 42 km away that matches no location token textually. -/
def C8crit : Criteria :=
  { baseCriteria with
    filter_location := some "gammaville"
    query := "condos near gammaville" }

def C8listing : Listing :=
  { baseListing with
    id := "g"
    locationName := some "Elsewhere"
    location := some ⟨14, 121⟩ }

def C8coords : GeoResult := ⟨14, 120, "Gammaville, PH"⟩

def C8dist : Dist := fun _ _ => 42

def C7xL : Listing := { baseListing with id := "x", locationName := some "Alpha Place" }

def C7zL : Listing := { baseListing with id := "z", locationName := some "Alpha Town" }

def C7yL : Listing := { baseListing with id := "y", locationName := some "Beta City" }

/-- Three requested location tokens; no candidate matches `gamma`. -/
def C7crit : Criteria :=
  { baseCriteria with filter_location := some "alpha, beta, gamma" }

def idsOf (l : List Listing) : List String := l.map (·.id)

/-! # Theorems for the claims -/

/-! ## C1: OR-over-units semantics of the numeric-range filters -/

/-- C1, counterexample: a listing whose listing-level price satisfies the
price range (so the spec's OR-over-units predicate accepts it) is rejected
by `propertyMeetsPrice` because it has unit variants and no unit price is in
range. -/
theorem C1_counterexample :
    specOrOverUnits C1crit.min_price C1crit.max_price (jsNum C1listing.price)
      (unitPricesOf C1listing) = true ∧
    propertyMeetsPrice C1crit C1listing = false := by
  decide

/-- C1, amended: bedrooms and bathrooms do follow OR-over-units; the price
filter instead uses unit prices exclusively whenever any unit price exists,
and consults the listing-level price only when no unit price exists. -/
theorem C1_amended (c : Criteria) (p : Listing) :
    propertyMeetsBedrooms c p =
      specOrOverUnits c.min_bedrooms c.max_bedrooms (jsNum p.bedrooms)
        (p.unitConfiguration.map fun u => jsNum u.bedrooms) ∧
    propertyMeetsBathrooms c p =
      specOrOverUnits c.min_bathrooms c.max_bathrooms (jsNum p.bathrooms)
        (p.unitConfiguration.map fun u => jsNum u.bathrooms) ∧
    (unitPricesOf p ≠ [] →
      propertyMeetsPrice c p =
        (decide (c.min_price = none ∧ c.max_price = none) ||
          (unitPricesOf p).any (inRange c.min_price c.max_price))) ∧
    (unitPricesOf p = [] →
      propertyMeetsPrice c p =
        specOrOverUnits c.min_price c.max_price (jsNum p.price) []) := by
  refine ⟨?_, ?_, ?_, ?_⟩
  · unfold propertyMeetsBedrooms specOrOverUnits
    by_cases h : c.min_bedrooms = none ∧ c.max_bedrooms = none <;> simp [h]
  · unfold propertyMeetsBathrooms specOrOverUnits
    by_cases h : c.min_bathrooms = none ∧ c.max_bathrooms = none <;> simp [h]
  · intro hu
    unfold propertyMeetsPrice
    by_cases h : c.min_price = none ∧ c.max_price = none <;> simp [h, hu]
  · intro hu
    unfold propertyMeetsPrice specOrOverUnits
    by_cases h : c.min_price = none ∧ c.max_price = none <;> simp [h, hu]

/-- C1 amended, witness at the counterexample listing: the price filter
follows the units-exclusive rule there. -/
theorem C1_amended_witness :
    propertyMeetsPrice C1crit C1listing =
      (decide (C1crit.min_price = none ∧ C1crit.max_price = none) ||
        (unitPricesOf C1listing).any (inRange C1crit.min_price C1crit.max_price)) :=
  (C1_amended C1crit C1listing).2.2.1 (by decide)

/-! ## C3: inverted price ranges survive normalization -/

/-- C3, counterexample: with `min_price > max_price` (both parseable and
non-negative), normalization leaves both price bounds in place and sets no
`rangeIssue` — the claimed clearing never happens for prices. -/
theorem C3_counterexample :
    sanitizeNumber C3raw.min_price = some 5000000 ∧
    sanitizeNumber C3raw.max_price = some 3000000 ∧
    (3000000 : ℚ) < 5000000 ∧ (0 : ℚ) ≤ 3000000 ∧
    (normalizeCriteria C3raw).criteria.min_price = some 5000000 ∧
    (normalizeCriteria C3raw).criteria.max_price = some 3000000 ∧
    (normalizeCriteria C3raw).flags.rangeIssue = none := by
  decide

/-- C3, amended: the `min > max` clearing applies to the bedroom and
bathroom ranges (`normalizeRangeN` clears both bounds and reports
`MIN_GREATER_THAN_MAX`), but `min_price`/`max_price` are never checked for
inversion: inverted price bounds inside the realistic thresholds pass
through normalization unchanged, with no `rangeIssue` and no
`unrealisticPrice`. -/
theorem C3_amended (raw : RawCriteria) (a b : ℚ)
    (hmin : sanitizeNumber raw.min_price = some a)
    (hmax : sanitizeNumber raw.max_price = some b)
    (hinv : b < a)
    (hlo1 : 100000 ≤ a) (hhi1 : a ≤ 200000000)
    (hlo2 : 100000 ≤ b) (hhi2 : b ≤ 200000000)
    (hpo : raw.flags.priceOutlier = none)
    (hup : raw.flags.unrealisticPrice = false)
    (hri : raw.flags.rangeIssue = none)
    (hbed1 : sanitizeNumber raw.min_bedrooms = none)
    (hbed2 : sanitizeNumber raw.max_bedrooms = none)
    (hbath1 : sanitizeNumber raw.min_bathrooms = none)
    (hbath2 : sanitizeNumber raw.max_bathrooms = none) :
    (normalizeCriteria raw).criteria.min_price = some a ∧
    (normalizeCriteria raw).criteria.max_price = some b ∧
    (normalizeCriteria raw).flags.rangeIssue = none ∧
    (normalizeCriteria raw).flags.unrealisticPrice = false ∧
    normalizeRangeN (some a) (some b) "NEGATIVE_BEDROOMS" =
      (none, none, some "MIN_GREATER_THAN_MAX") := by
  have hdet1 : detectPriceOutlier (some a) = none := by
    simp only [detectPriceOutlier]
    rw [if_neg (by linarith), if_neg (by linarith)]
  have hdet2 : detectPriceOutlier (some b) = none := by
    simp only [detectPriceOutlier]
    rw [if_neg (by linarith), if_neg (by linarith)]
  have hbeds : normalizeRangeN (sanitizeNumber raw.min_bedrooms)
      (sanitizeNumber raw.max_bedrooms) "NEGATIVE_BEDROOMS" = (none, none, none) := by
    rw [hbed1, hbed2]; rfl
  have hbaths : normalizeRangeN (sanitizeNumber raw.min_bathrooms)
      (sanitizeNumber raw.max_bathrooms) "NEGATIVE_BATHROOMS" = (none, none, none) := by
    rw [hbath1, hbath2]; rfl
  have hrange : normalizeRangeN (some a) (some b) "NEGATIVE_BEDROOMS" =
      (none, none, some "MIN_GREATER_THAN_MAX") := by
    unfold normalizeRangeN
    have hnnA : ¬(a < 0) := by linarith
    have hnnB : ¬(b < 0) := by linarith
    simp [hnnA, hnnB, hinv]
  refine ⟨?_, ?_, ?_, ?_, hrange⟩ <;>
    simp [normalizeCriteria, hmin, hmax, hpo, hup, hri, hdet1, hdet2,
      hbeds, hbaths, truthyStr]

/-- C3 amended, witness at the counterexample criteria. -/
theorem C3_amended_witness :
    (normalizeCriteria C3raw).criteria.min_price = some 5000000 ∧
    (normalizeCriteria C3raw).criteria.max_price = some 3000000 ∧
    (normalizeCriteria C3raw).flags.rangeIssue = none ∧
    (normalizeCriteria C3raw).flags.unrealisticPrice = false ∧
    normalizeRangeN (some 5000000) (some 3000000) "NEGATIVE_BEDROOMS" =
      (none, none, some "MIN_GREATER_THAN_MAX") :=
  C3_amended C3raw 5000000 3000000 (by decide) (by decide) (by decide)
    (by decide) (by decide) (by decide) (by decide) (by decide) (by decide)
    (by decide) (by decide) (by decide) (by decide) (by decide)

/-! ## C5: sentinel queries and blocking flags short-circuit the search -/

/-- C5: whenever the normalized query is one of the three sentinel values or
the flags carry `needsClarification`, `unrealisticPrice` or a `rangeIssue`,
the search returns an empty result with a message code and never touches the
catalog; in particular `{min_price: 50, max_price: 100}` yields
`unrealisticPrice`, `priceOutlier = TOO_LOW`, cleared bounds and a skipped
search. -/
theorem C5_shortCircuit (dist : Dist) (geocode : Geocoder)
    (raw : RawCriteria) (catalog : List Listing) :
    (((normalizeCriteria raw).criteria.query = "NOT_REAL_ESTATE" ∨
      (normalizeCriteria raw).criteria.query = "INVALID_PROPERTY_TYPE" ∨
      (normalizeCriteria raw).criteria.query = "UNREALISTIC_DESCRIPTION" ∨
      (normalizeCriteria raw).flags.needsClarification = true ∨
      (normalizeCriteria raw).flags.unrealisticPrice = true ∨
      truthyStr (normalizeCriteria raw).flags.rangeIssue = true) →
      (∃ m f, searchExecute dist geocode raw catalog = .empty m f) ∧
      searchExecute dist geocode raw catalog = searchExecute dist geocode raw []) ∧
    ((normalizeCriteria C5raw).flags.unrealisticPrice = true ∧
     (normalizeCriteria C5raw).flags.priceOutlier = some "TOO_LOW" ∧
     (normalizeCriteria C5raw).criteria.min_price = none ∧
     (normalizeCriteria C5raw).criteria.max_price = none ∧
     searchExecute dist geocode C5raw catalog =
       .empty "UNREALISTIC_PRICE_QUERY" (some (normalizeCriteria C5raw).flags)) := by
  constructor
  · intro h
    have hd : ∃ m, searchDecide (normalizeCriteria raw) = some m := by
      unfold searchDecide
      rcases h with h | h | h | h | h | h <;> split_ifs <;> simp_all
    obtain ⟨m, hm⟩ := hd
    refine ⟨⟨m,
      if m = "NOT_REAL_ESTATE_QUERY" ∨ m = "INVALID_PROPERTY_TYPE_QUERY" ∨
          m = "UNREALISTIC_DESCRIPTION_QUERY" then none
      else some (normalizeCriteria raw).flags,
      by simp [searchExecute, hm]⟩, by simp [searchExecute, hm]⟩
  · have hm : searchDecide (normalizeCriteria C5raw) =
        some "UNREALISTIC_PRICE_QUERY" := by decide
    refine ⟨by decide, by decide, by decide, by decide, ?_⟩
    simp [searchExecute, hm]

/-- C5, witness: the clarification flag short-circuits the search on any
catalog. -/
theorem C5_witness :
    (∃ m f, searchExecute farDist noGeo
      { baseRaw with flags := { defaultFlags with needsClarification := true } }
      [baseListing] = .empty m f) ∧
    searchExecute farDist noGeo
      { baseRaw with flags := { defaultFlags with needsClarification := true } }
      [baseListing] =
    searchExecute farDist noGeo
      { baseRaw with flags := { defaultFlags with needsClarification := true } }
      [] :=
  (C5_shortCircuit farDist noGeo
    { baseRaw with flags := { defaultFlags with needsClarification := true } }
    [baseListing]).1 (by decide)

/-! ## C6: ranking strategy selection and its fallback chain -/

/-- C6: for 4-10 candidates the embedding strategy decides first (its
successful outcome is returned untouched, regardless of the LLM reply); a
failed embedding provider yields `none`; and when the LLM reply is also
unparseable the result is the input order with empty reason and score maps.
The model is a total function, so no exception can escape. -/
theorem C6_fallbackChain (cands : List Slim) (params : RankParams)
    (sims : Option (List ℚ)) (reply : LlmReply)
    (h4 : 4 ≤ cands.length) (h10 : cands.length ≤ 10) :
    (∀ r, rankByEmbeddings cands params sims = some r →
      rerankExecute cands params sims reply = r) ∧
    rankByEmbeddings cands params none = none ∧
    rerankExecute cands params none .unparseable =
      ⟨cands.map (·.id), [], []⟩ := by
  have hnone : rankByEmbeddings cands params none = none := by
    unfold rankByEmbeddings
    dsimp only
    split <;> rfl
  refine ⟨?_, hnone, ?_⟩
  · intro r hr
    unfold rerankExecute
    rw [if_pos ⟨h4, h10⟩, hr]
  · unfold rerankExecute
    rw [if_pos ⟨h4, h10⟩, hnone]
    rfl

/-- C6, witness at six concrete candidates. -/
theorem C6_witness :
    rerankExecute
      [{ baseSlim with id := "a" }, { baseSlim with id := "b" },
       { baseSlim with id := "c" }, { baseSlim with id := "d" },
       { baseSlim with id := "e" }, { baseSlim with id := "f" }]
      baseParams none .unparseable =
    ⟨["a", "b", "c", "d", "e", "f"], [], []⟩ := by
  have h := (C6_fallbackChain
    [{ baseSlim with id := "a" }, { baseSlim with id := "b" },
     { baseSlim with id := "c" }, { baseSlim with id := "d" },
     { baseSlim with id := "e" }, { baseSlim with id := "f" }]
    baseParams none .unparseable (by decide) (by decide)).2.2
  simpa using h

/-! ## C2: ranking outcome validation -/

/-- C2, counterexample: the selector returns the LLM outcome `["zzz"]`
unchanged — it is not a permutation of the input ids and carries no scores
or reasons, yet no identity fallback is substituted. -/
theorem C2_counterexample :
    (rerankExecute [C2slimA, C2slimB] baseParams none C2reply).orderedIds =
      ["zzz"] ∧
    ¬ ((rerankExecute [C2slimA, C2slimB] baseParams none C2reply).orderedIds.Perm
        ([C2slimA, C2slimB].map (·.id))) ∧
    (rerankExecute [C2slimA, C2slimB] baseParams none C2reply).scoresById = [] ∧
    (rerankExecute [C2slimA, C2slimB] baseParams none C2reply).reasonsById = [] := by
  refine ⟨by decide, ?_, by decide, by decide⟩
  intro h
  have := h.length_eq
  simp at this
  have h2 : (rerankExecute [C2slimA, C2slimB] baseParams none C2reply).orderedIds =
      ["zzz"] := by decide
  rw [h2] at this
  simp at this

/-- C2, amended: the embedding strategy's outcome is a permutation of the
candidate ids with one reason and one score entry per candidate by
construction, but the selector's only check on the LLM outcome is that
`orderedIds` is an array: a missing/non-array `orderedIds` is replaced by the
original order, while an array that is not a permutation passes through
unverified. -/
theorem C2_amended (cands : List Slim) (params : RankParams)
    (sims : Option (List ℚ)) :
    (∀ o, rankByEmbeddings cands params sims = some o →
      o.orderedIds.Perm (cands.map (·.id)) ∧
      (o.reasonsById.map Prod.fst).Perm (cands.map (·.id)) ∧
      (o.scoresById.map Prod.fst).Perm (cands.map (·.id))) ∧
    (∀ p : ParsedRank, p.orderedIds = none →
      (llmStage cands (.ok p)).orderedIds = cands.map (·.id)) ∧
    (∀ p ids, p.orderedIds = some ids →
      llmStage cands (.ok p) = ⟨ids, p.reasonsById, p.scoresById⟩) := by
  refine ⟨?_, ?_, ?_⟩
  · intro o ho
    unfold rankByEmbeddings at ho
    dsimp only at ho
    by_cases hq : trimStr (embeddingQueryText params) = ""
    · rw [if_pos hq] at ho
      simp at ho
    · rw [if_neg hq] at ho
      cases sims with
      | none => simp at ho
      | some s =>
        dsimp only at ho
        rw [Option.some_inj] at ho
        have hperm : ((embedEntries cands params s).insertionSort
            bySimDesc).Perm (embedEntries cands params s) :=
          List.perm_insertionSort _ _
        have hids : ((embedEntries cands params s).map (·.id)) =
            cands.map (·.id) := by
          unfold embedEntries
          rw [List.map_map]
          rw [show ((fun e : ScoredEntry => e.id) ∘ fun pr : ℕ × Slim =>
            ({ id := pr.2.id
               score := (jsRound (50 + s.getD pr.1 0 * 50) : ℤ)
               similarity := s.getD pr.1 0
               reason := embeddingReason params pr.2 (s.getD pr.1 0) } :
              ScoredEntry)) = ((fun c => c.id) ∘ Prod.snd) from rfl]
          rw [← List.map_map, List.enum_map_snd]
        have hkey : (((embedEntries cands params s).insertionSort
            bySimDesc).map (·.id)).Perm (cands.map (·.id)) := by
          rw [← hids]
          exact hperm.map (·.id)
        subst ho
        refine ⟨hkey, ?_, ?_⟩
        · rw [List.map_map]
          exact hkey
        · rw [List.map_map]
          exact hkey
  · intro p hp
    simp only [llmStage]
    rw [hp]
  · intro p ids hp
    simp only [llmStage]
    rw [hp]

/-- C2 amended, witness: a parsed reply without an `orderedIds` array is
replaced by the original candidate order. -/
theorem C2_amended_witness :
    (llmStage [C2slimA, C2slimB] (.ok ⟨none, [], []⟩)).orderedIds =
      [C2slimA, C2slimB].map (·.id) :=
  (C2_amended [C2slimA, C2slimB] baseParams none).2.1 ⟨none, [], []⟩ rfl

/-! ## C10: geocoding happens at most once, on the first location token -/

/-- C10: `buildStrictCandidates` issues at most one geocoding request, always
for the first comma-separated location token; consequently the pipeline
output (geo distances and `referenceLocation` included) depends on the
geocoder only through its value at that first token, and the returned
`referenceLocation` is that geocode result's display name. -/
theorem C10_geocodeOnce (dist : Dist) (g1 g2 : Geocoder)
    (items : List Listing) (c : Criteria) (ex : List String) (limit : ℕ) :
    (filterPipeline dist g1 items c ex limit).geocodeRequests.length ≤ 1 ∧
    (∀ q ∈ (filterPipeline dist g1 items c ex limit).geocodeRequests,
      firstLocationOf c = some q) ∧
    ((∀ s, firstLocationOf c = some s → g1 s = g2 s) →
      filterPipeline dist g1 items c ex limit =
        filterPipeline dist g2 items c ex limit) ∧
    (filterPipeline dist g1 items c ex limit).referenceLocation =
      ((firstLocationOf c).bind g1).map (·.displayName) := by
  refine ⟨?_, ?_, ?_, ?_⟩
  · unfold filterPipeline
    cases h : firstLocationOf c <;> simp [h]
  · unfold filterPipeline
    cases h : firstLocationOf c <;> simp [h]
  · intro hagree
    have hbind : (firstLocationOf c).bind g1 = (firstLocationOf c).bind g2 := by
      cases h : firstLocationOf c with
      | none => rfl
      | some s => simp [hagree s h]
    unfold filterPipeline
    rw [hbind]
  · unfold filterPipeline
    rfl

/-- C10, witness: with the geocoders agreeing only on the first token, the
pipelines coincide. -/
theorem C10_witness :
    filterPipeline farDist C10geo1 [baseListing] C10crit [] 3 =
      filterPipeline farDist C10geo2 [baseListing] C10crit [] 3 :=
  (C10_geocodeOnce farDist C10geo1 C10geo2 [baseListing] C10crit [] 3).2.2.1
    (by
      intro s hs
      have h : firstLocationOf C10crit = some "Cavite" := by decide
      rw [h, Option.some_inj] at hs
      subst hs
      rfl)

/-! ## C4: the cascade stops at the first non-empty pass; price relaxation
only for closed ranges -/

/-- C4: the cascade returns the first pass that yields results (later passes
contribute nothing); the price-relaxed pass can only run with a text
location, empty earlier passes and a closed price range — never a one-sided
bound — and everything it returns still matches the location filter and the
exclusion set. -/
theorem C4_cascade (dist : Dist) (c : Criteria) (ex : List String)
    (qc : Option GeoResult) (items : List Listing) :
    (strictResults c ex items ≠ [] →
      cascadeCandidates dist c ex qc items = strictResults c ex items) ∧
    (amenityRelaxedResults c ex items ≠ [] →
      cascadeCandidates dist c ex qc items = amenityRelaxedResults c ex items) ∧
    (priceRelaxedResults c ex items ≠ [] →
      cascadeCandidates dist c ex qc items = priceRelaxedResults c ex items ∧
      locationTokensOf c ≠ [] ∧ strictResults c ex items = [] ∧
      amenityRelaxedResults c ex items = [] ∧
      c.min_price ≠ none ∧ c.max_price ≠ none) ∧
    (c.min_price = none ∨ c.max_price = none →
      priceRelaxedResults c ex items = []) ∧
    (∀ p ∈ priceRelaxedResults c ex items,
      propertyTextContainsAnyLocation p (locationTokensOf c) = true ∧
      ex.contains p.id = false) := by
  refine ⟨?_, ?_, ?_, ?_, ?_⟩
  · intro h1
    have h2 : amenityRelaxedResults c ex items = [] := by
      unfold amenityRelaxedResults
      rw [if_neg (by simp [h1])]
    have h3 : priceRelaxedResults c ex items = [] := by
      unfold priceRelaxedResults
      rw [if_neg (by simp [h1])]
    have h4 : geoResults dist c ex qc items = [] := by
      cases qc with
      | none => rfl
      | some coords =>
        simp only [geoResults]
        rw [if_neg (by simp [h1])]
    simp [cascadeCandidates, h2, h3, h4]
  · intro h2
    have hg : locationTokensOf c ≠ [] ∧ strictResults c ex items = [] ∧
        amenityFiltersOf c ≠ [] := by
      by_contra hg
      rw [amenityRelaxedResults, if_neg hg] at h2
      exact h2 rfl
    have h3 : priceRelaxedResults c ex items = [] := by
      unfold priceRelaxedResults
      rw [if_neg (by simp [h2])]
    have h4 : geoResults dist c ex qc items = [] := by
      cases qc with
      | none => rfl
      | some coords =>
        simp only [geoResults]
        rw [if_neg (by simp [h2])]
    simp [cascadeCandidates, hg.2.1, h3, h4]
  · intro h3
    have hg : locationTokensOf c ≠ [] ∧
        strictResults c ex items ++ amenityRelaxedResults c ex items = [] ∧
        c.min_price ≠ none ∧ c.max_price ≠ none := by
      by_contra hg
      rw [priceRelaxedResults, if_neg hg] at h3
      exact h3 rfl
    have h4 : geoResults dist c ex qc items = [] := by
      cases qc with
      | none => rfl
      | some coords =>
        simp only [geoResults]
        rw [if_neg (by simp [h3])]
    have hs1 : strictResults c ex items = [] := by
      have := hg.2.1
      simp at this
      exact this.1
    have hs2 : amenityRelaxedResults c ex items = [] := by
      have := hg.2.1
      simp at this
      exact this.2
    exact ⟨by simp [cascadeCandidates, hs1, hs2, h4], hg.1, hs1, hs2,
      hg.2.2.1, hg.2.2.2⟩
  · intro h
    unfold priceRelaxedResults
    rw [if_neg (by rcases h with h | h <;> simp [h])]
  · intro p hp
    have hmem : p ∈ items.filter (priceRelaxedPred c ex) := by
      by_cases hg : locationTokensOf c ≠ [] ∧
          strictResults c ex items ++ amenityRelaxedResults c ex items = [] ∧
          c.min_price ≠ none ∧ c.max_price ≠ none
      · rwa [priceRelaxedResults, if_pos hg] at hp
      · rw [priceRelaxedResults, if_neg hg] at hp
        simp at hp
    have hpred := List.of_mem_filter hmem
    unfold priceRelaxedPred at hpred
    simp only [Bool.and_eq_true, Bool.not_eq_true'] at hpred
    exact ⟨hpred.2, hpred.1.1.1.1.1.1⟩

/-- C4, witness: with a non-empty strict pass the cascade returns exactly it. -/
theorem C4_witness :
    cascadeCandidates farDist baseCriteria [] none [C4listing] =
      strictResults baseCriteria [] [C4listing] :=
  (C4_cascade farDist baseCriteria [] none [C4listing]).1 (by decide)

/-! ## C8: the geo-fallback pass -/

/-- C8: the geo pass contributes nothing without proximity intent in the
query or without a geocoded point; when it runs (location given, all earlier
passes empty, proximity intent, geocode success), its output is exactly the
non-excluded, filter-passing listings with truthy coordinates whose distance
from the geocoded point is at most 100 km, each returned as the listing
tagged with that distance. -/
theorem C8_geoFallback (dist : Dist) (c : Criteria) (ex : List String)
    (items : List Listing) (coords : GeoResult) :
    (isNearbyQuery c.query = false →
      ∀ qc, geoResults dist c ex qc items = []) ∧
    geoResults dist c ex none items = [] ∧
    (geoResults dist c ex (some coords) items ≠ [] →
      isNearbyQuery c.query = true ∧ locationTokensOf c ≠ [] ∧
      strictResults c ex items = [] ∧ amenityRelaxedResults c ex items = [] ∧
      priceRelaxedResults c ex items = []) ∧
    (locationTokensOf c ≠ [] →
      strictResults c ex items ++ amenityRelaxedResults c ex items ++
        priceRelaxedResults c ex items = [] →
      isNearbyQuery c.query = true →
      ∀ x, (x ∈ geoResults dist c ex (some coords) items ↔
        ∃ p ∈ items, geoBasePred c ex p = true ∧
          ∃ pt, p.location = some pt ∧ pt.latitude ≠ 0 ∧ pt.longitude ≠ 0 ∧
            dist ⟨coords.latitude, coords.longitude⟩ pt ≤ 100 ∧
            x = tagDist p (dist ⟨coords.latitude, coords.longitude⟩ pt))) := by
  refine ⟨?_, rfl, ?_, ?_⟩
  · intro hnear qc
    cases qc with
    | none => rfl
    | some coords2 =>
      simp only [geoResults]
      rw [if_neg (by simp [hnear])]
  · intro hne
    by_cases hg : locationTokensOf c ≠ [] ∧
        strictResults c ex items ++ amenityRelaxedResults c ex items ++
          priceRelaxedResults c ex items = [] ∧
        isNearbyQuery c.query = true
    · obtain ⟨hl, happ, hnear⟩ := hg
      simp only [List.append_eq_nil] at happ
      exact ⟨hnear, hl, happ.1.1, happ.1.2, happ.2⟩
    · exfalso
      apply hne
      simp only [geoResults]
      rw [if_neg hg]
  · intro hl happ hnear x
    simp only [geoResults]
    rw [if_pos ⟨hl, happ, hnear⟩]
    unfold geoPass
    rw [List.mem_filterMap]
    constructor
    · rintro ⟨p, hp, hf⟩
      refine ⟨p, hp, ?_⟩
      by_cases hb : geoBasePred c ex p = true
      · rw [if_pos hb] at hf
        cases hloc : p.location with
        | none => rw [hloc] at hf; simp at hf
        | some pt =>
          rw [hloc] at hf
          dsimp only at hf
          by_cases hco : pt.latitude ≠ 0 ∧ pt.longitude ≠ 0
          · rw [if_pos hco] at hf
            by_cases hd : dist ⟨coords.latitude, coords.longitude⟩ pt ≤ 100
            · rw [if_pos hd] at hf
              exact ⟨hb, pt, rfl, hco.1, hco.2, hd,
                (Option.some_inj.mp hf).symm⟩
            · rw [if_neg hd] at hf; simp at hf
          · rw [if_neg hco] at hf; simp at hf
      · rw [if_neg hb] at hf; simp at hf
    · rintro ⟨p, hp, hb, pt, hloc, hlat, hlon, hd, hx⟩
      refine ⟨p, hp, ?_⟩
      rw [if_pos hb, hloc]
      dsimp only
      rw [if_pos ⟨hlat, hlon⟩, if_pos hd, hx]

/-- C8, witness: the 42 km listing is returned by the geo pass, tagged. -/
theorem C8_witness :
    tagDist C8listing 42 ∈ geoResults C8dist C8crit [] (some C8coords) [C8listing] :=
  ((C8_geoFallback C8dist C8crit [] [C8listing] C8coords).2.2.2
    (by decide) (by decide) (by decide) (tagDist C8listing 42)).mpr
    ⟨C8listing, by decide, by decide, ⟨14, 121⟩, rfl, by decide, by decide,
      by decide, rfl⟩

/-! ## C7: diversity balancing -/

/-- C7, counterexample: with tokens `alpha, beta, gamma` and candidates
matching only `alpha` and `beta`, the diversity-balanced reorder still
replaces the original order (the pipeline returns `x, y, z` instead of the
original `x, z, y`) even though no candidate was obtained for `gamma`. -/
theorem C7_counterexample :
    diversityStep C7crit 3 [C7xL, C7zL, C7yL] = [C7xL, C7yL, C7zL] ∧
    [C7xL, C7yL, C7zL] ≠ [C7xL, C7zL, C7yL] ∧
    (filterPipeline farDist noGeo [C7xL, C7zL, C7yL] C7crit [] 3).capped =
      [C7xL, C7yL, C7zL] ∧
    applySort C7crit (dedupById
      (cascadeCandidates farDist C7crit [] none [C7xL, C7zL, C7yL])) =
      [C7xL, C7zL, C7yL] ∧
    "gamma" ∈ locationTokensOf C7crit ∧
    (∀ p ∈ ([C7xL, C7zL, C7yL] : List Listing),
      strContains (candidateText p) "gamma" = false) := by
  decide

/-- C7, amended: the reorder replaces the original order only when more than
one location token was requested, the requested count covers all tokens, and
candidates exist for at least two distinct tokens — one candidate per
non-empty token group, not per requested token, so a token with no matching
candidate does not prevent replacement. -/
theorem C7_amended (c : Criteria) (limit : ℕ) (l : List Listing)
    (h : diversityStep c limit l ≠ l) :
    1 < (locationTokensOf c).length ∧
    (locationTokensOf c).length ≤ limit ∧
    1 < ((((locationTokensOf c).eraseDups.map
      (groupFor (locationTokensOf c) l)).filter (fun g => g ≠ [])).length) := by
  unfold diversityStep at h
  by_cases h1 : 1 < (locationTokensOf c).length ∧ l ≠ []
  · rw [if_pos h1] at h
    dsimp only at h
    by_cases h2 : 1 < ((((locationTokensOf c).eraseDups.map
        (groupFor (locationTokensOf c) l)).filter (fun g => g ≠ [])).length) ∧
        (locationTokensOf c).length ≤ limit
    · exact ⟨h1.1, h2.2, h2.1⟩
    · rw [if_neg h2] at h
      exact absurd rfl h
  · rw [if_neg h1] at h
    exact absurd rfl h

/-- C7 amended, witness at the counterexample input. -/
theorem C7_amended_witness :
    1 < (locationTokensOf C7crit).length ∧
    (locationTokensOf C7crit).length ≤ 3 ∧
    1 < ((((locationTokensOf C7crit).eraseDups.map
      (groupFor (locationTokensOf C7crit) [C7xL, C7zL, C7yL])).filter
        (fun g => g ≠ [])).length) :=
  C7_amended C7crit 3 [C7xL, C7zL, C7yL] (by decide)

/-! ## C9: helper lemmas -/

theorem dedupByIdGo_subset :
    ∀ (l : List Listing) (seen : List String) (x : Listing),
      x ∈ dedupByIdGo seen l → x ∈ l := by
  intro l
  induction l with
  | nil => intro seen x h; simpa [dedupByIdGo] using h
  | cons y ys ih =>
    intro seen x h
    simp only [dedupByIdGo] at h
    by_cases hc : seen.contains y.id
    · rw [if_pos hc] at h
      exact List.mem_cons_of_mem _ (ih _ _ h)
    · rw [if_neg hc] at h
      rcases List.mem_cons.mp h with h | h
      · exact h ▸ List.mem_cons_self _ _
      · exact List.mem_cons_of_mem _ (ih _ _ h)

theorem dedupByIdGo_spec :
    ∀ (l : List Listing) (seen : List String),
      (∀ y ∈ dedupByIdGo seen l, seen.contains y.id = false) ∧
      (idsOf (dedupByIdGo seen l)).Nodup := by
  intro l
  induction l with
  | nil => intro seen; simp [dedupByIdGo, idsOf]
  | cons y ys ih =>
    intro seen
    simp only [dedupByIdGo]
    by_cases hc : seen.contains y.id
    · rw [if_pos hc]
      exact ih seen
    · rw [if_neg hc]
      constructor
      · intro z hz
        rcases List.mem_cons.mp hz with h | h
        · subst h
          exact Bool.of_not_eq_true hc
        · have := (ih (y.id :: seen)).1 z h
          simp only [List.contains_cons] at this
          simp only [Bool.or_eq_false_iff] at this
          exact this.2
      · simp only [idsOf, List.map_cons, List.nodup_cons]
        refine ⟨?_, (ih (y.id :: seen)).2⟩
        intro hmem
        obtain ⟨z, hz, hzid⟩ := List.mem_map.mp hmem
        have := (ih (y.id :: seen)).1 z hz
        simp only [List.contains_cons] at this
        simp only [Bool.or_eq_false_iff] at this
        have h1 := this.1
        rw [hzid] at h1
        simp at h1

theorem dedupById_ids_nodup (l : List Listing) :
    (idsOf (dedupById l)).Nodup :=
  (dedupByIdGo_spec l []).2

theorem dedupById_subset (l : List Listing) (x : Listing)
    (h : x ∈ dedupById l) : x ∈ l :=
  dedupByIdGo_subset l [] x h

theorem dedupByIdGo_eq_self :
    ∀ (l : List Listing) (seen : List String),
      (idsOf l).Nodup → (∀ y ∈ l, seen.contains y.id = false) →
      dedupByIdGo seen l = l := by
  intro l
  induction l with
  | nil => intro seen _ _; rfl
  | cons y ys ih =>
    intro seen hnd hdisj
    simp only [dedupByIdGo]
    rw [if_neg (by rw [hdisj y (List.mem_cons_self _ _)]; simp)]
    congr 1
    apply ih
    · simp only [idsOf, List.map_cons, List.nodup_cons] at hnd
      exact hnd.2
    · intro z hz
      simp only [List.contains_cons, Bool.or_eq_false_iff]
      constructor
      · simp only [idsOf, List.map_cons, List.nodup_cons] at hnd
        have : y.id ∉ idsOf ys := hnd.1
        simp only [beq_eq_false_iff_ne, ne_eq]
        intro he
        exact this (he ▸ List.mem_map_of_mem (·.id) hz)
      · exact hdisj z (List.mem_cons_of_mem _ hz)

theorem dedupById_eq_self (l : List Listing) (h : (idsOf l).Nodup) :
    dedupById l = l :=
  dedupByIdGo_eq_self l [] h (by intro y _; rfl)

theorem applySort_perm (c : Criteria) (l : List Listing) :
    (applySort c l).Perm l := by
  unfold applySort
  split_ifs with h1 h2
  · exact List.perm_insertionSort _ _
  · exact List.perm_insertionSort _ _
  · exact List.Perm.refl _

theorem fillUp_acc_subset (limit : ℕ) :
    ∀ (l acc : List Listing) (x : Listing), x ∈ acc →
      x ∈ fillUp limit acc l := by
  intro l
  induction l with
  | nil => intro acc x hx; simpa [fillUp] using hx
  | cons z zs ih =>
    intro acc x hx
    simp only [fillUp]
    split_ifs with h1 h2
    · exact hx
    · exact ih acc x hx
    · exact ih (acc ++ [z]) x (List.mem_append_left _ hx)

theorem fillUp_subset (limit : ℕ) :
    ∀ (l acc : List Listing) (x : Listing), x ∈ fillUp limit acc l →
      x ∈ acc ∨ x ∈ l := by
  intro l
  induction l with
  | nil => intro acc x hx; left; simpa [fillUp] using hx
  | cons z zs ih =>
    intro acc x hx
    simp only [fillUp] at hx
    split_ifs at hx with h1 h2
    · exact Or.inl hx
    · rcases ih acc x hx with h | h
      · exact Or.inl h
      · exact Or.inr (List.mem_cons_of_mem _ h)
    · rcases ih (acc ++ [z]) x hx with h | h
      · rcases List.mem_append.mp h with h | h
        · exact Or.inl h
        · simp at h
          exact Or.inr (h ▸ List.mem_cons_self _ _)
      · exact Or.inr (List.mem_cons_of_mem _ h)

theorem fillUp_ids_nodup (limit : ℕ) :
    ∀ (l acc : List Listing), (idsOf acc).Nodup →
      (idsOf (fillUp limit acc l)).Nodup := by
  intro l
  induction l with
  | nil => intro acc h; simpa [fillUp] using h
  | cons z zs ih =>
    intro acc h
    simp only [fillUp]
    split_ifs with h1 h2
    · exact h
    · exact ih acc h
    · apply ih
      have hz : z.id ∉ acc.map (·.id) := by simpa using h2
      simp only [idsOf, List.map_append, List.map_cons, List.map_nil] at h ⊢
      rw [List.nodup_append]
      refine ⟨h, List.nodup_singleton _, ?_⟩
      intro a ha hb
      simp only [List.mem_singleton] at hb
      exact hz (hb ▸ ha)

theorem length_filter_imp_le {α : Type} (l : List α) (p q : α → Bool)
    (h : ∀ y, p y = true → q y = true) :
    (l.filter p).length ≤ (l.filter q).length := by
  induction l with
  | nil => simp
  | cons x xs ih =>
    simp only [List.filter_cons]
    by_cases hp : p x = true
    · rw [if_pos hp, if_pos (h x hp)]
      simpa using ih
    · rw [if_neg hp]
      by_cases hq : q x = true
      · rw [if_pos hq]
        exact le_trans ih (by simp)
      · rw [if_neg hq]
        exact ih

theorem length_filter_partition {α : Type} (l : List α) (p : α → Bool) :
    (l.filter p).length + (l.filter (fun y => !p y)).length = l.length := by
  induction l with
  | nil => simp
  | cons x xs ih =>
    simp only [List.filter_cons]
    by_cases hp : p x = true
    · rw [if_pos hp, if_neg (by simp [hp])]
      simp only [List.length_cons]
      omega
    · have hp' : p x = false := by revert hp; cases p x <;> simp
      rw [if_neg hp, if_pos (by simp [hp'])]
      simp only [List.length_cons]
      omega

theorem acc_filter_count_le (acc S : List Listing)
    (hsub : ∀ x ∈ acc, x ∈ S) (haccN : (idsOf acc).Nodup) :
    acc.length +
      (S.filter (fun y => !((acc.map (·.id)).contains y.id))).length ≤
    S.length := by
  have hpart :=
    length_filter_partition S (fun y => (acc.map (·.id)).contains y.id)
  have hsp : (idsOf acc).Subperm
      (idsOf (S.filter (fun y => (acc.map (·.id)).contains y.id))) := by
    apply List.Nodup.subperm haccN
    intro a ha
    obtain ⟨x, hx, rfl⟩ := List.mem_map.mp ha
    apply List.mem_map_of_mem
    rw [List.mem_filter]
    refine ⟨hsub x hx, ?_⟩
    exact List.elem_eq_true_of_mem (List.mem_map_of_mem (·.id) hx)
  have hlen := hsp.length_le
  simp only [idsOf, List.length_map] at hlen
  omega

theorem fillUp_complete (limit : ℕ) :
    ∀ (l acc : List Listing),
      acc.length +
        (l.filter (fun y => !((acc.map (·.id)).contains y.id))).length ≤ limit →
      ∀ x ∈ l, ∃ y ∈ fillUp limit acc l, y.id = x.id := by
  intro l
  induction l with
  | nil => intro acc _ x hx; simp at hx
  | cons z zs ih =>
    intro acc hle x hx
    simp only [fillUp]
    split_ifs with h1 h2
    · have h0 : ((z :: zs).filter
          (fun y => !((acc.map (·.id)).contains y.id))).length = 0 := by omega
      rw [List.length_eq_zero] at h0
      have hcx : (acc.map (·.id)).contains x.id = true := by
        have := List.filter_eq_nil.mp h0 x hx
        revert this
        cases (acc.map (·.id)).contains x.id <;> simp
      have hxmem : x.id ∈ acc.map (·.id) := by simpa using hcx
      obtain ⟨y, hy, hyid⟩ := List.mem_map.mp hxmem
      exact ⟨y, hy, hyid⟩
    · have hle' : acc.length +
          (zs.filter (fun y => !((acc.map (·.id)).contains y.id))).length ≤
          limit := by
        have hdrop : ((z :: zs).filter
            (fun y => !((acc.map (·.id)).contains y.id))) =
            zs.filter (fun y => !((acc.map (·.id)).contains y.id)) := by
          simp only [List.filter_cons, h2]
          simp
        rw [hdrop] at hle
        exact hle
      rcases List.mem_cons.mp hx with rfl | hx'
      · have hxmem : x.id ∈ acc.map (·.id) := by simpa using h2
        obtain ⟨y, hy, hyid⟩ := List.mem_map.mp hxmem
        exact ⟨y, fillUp_acc_subset limit zs acc y hy, hyid⟩
      · exact ih acc hle' x hx'
    · have h2' : (acc.map (·.id)).contains z.id = false := by
        revert h2; cases (acc.map (·.id)).contains z.id <;> simp
      have hkeep : ((z :: zs).filter
          (fun y => !((acc.map (·.id)).contains y.id))).length =
          (zs.filter (fun y => !((acc.map (·.id)).contains y.id))).length + 1 := by
        simp only [List.filter_cons, h2']
        simp
      have hmono : (zs.filter
          (fun y => !(((acc ++ [z]).map (·.id)).contains y.id))).length ≤
          (zs.filter (fun y => !((acc.map (·.id)).contains y.id))).length := by
        apply length_filter_imp_le
        intro y hy
        simp only [List.map_append, List.map_cons, List.map_nil,
          Bool.not_eq_true'] at hy ⊢
        have hnm : y.id ∉ acc.map (·.id) ++ [z.id] := by simpa using hy
        have : y.id ∉ acc.map (·.id) := fun hm => hnm (List.mem_append_left _ hm)
        simpa using this
      have hle' : (acc ++ [z]).length +
          (zs.filter (fun y => !(((acc ++ [z]).map (·.id)).contains y.id))).length ≤
          limit := by
        simp only [List.length_append, List.length_cons, List.length_nil]
        omega
      rcases List.mem_cons.mp hx with rfl | hx'
      · exact ⟨x, fillUp_acc_subset limit zs (acc ++ [x]) x
          (List.mem_append_right _ (List.mem_singleton_self _)), rfl⟩
      · exact ih (acc ++ [z]) hle' x hx'

theorem buildRepsGo_subset (limit : ℕ) :
    ∀ (gs : List (List Listing)) (acc : List Listing) (x : Listing),
      x ∈ buildRepsGo limit acc gs → x ∈ acc ∨ ∃ g ∈ gs, x ∈ g := by
  intro gs
  induction gs with
  | nil => intro acc x h; left; simpa [buildRepsGo] using h
  | cons g gs ih =>
    intro acc x h
    simp only [buildRepsGo] at h
    rcases ih _ x h with hacc | ⟨g2, hg2, hx2⟩
    · cases hg : g with
      | nil => rw [hg] at hacc; exact Or.inl hacc
      | cons z zt =>
        rw [hg] at hacc
        dsimp only at hacc
        split_ifs at hacc with hcond
        · rcases List.mem_append.mp hacc with h9 | h9
          · exact Or.inl h9
          · simp only [List.mem_singleton] at h9
            subst hg
            exact Or.inr ⟨z :: zt, List.mem_cons_self _ _,
              h9 ▸ List.mem_cons_self _ _⟩
        · exact Or.inl hacc
    · exact Or.inr ⟨g2, List.mem_cons_of_mem _ hg2, hx2⟩

theorem buildRepsGo_ids_nodup (limit : ℕ) :
    ∀ (gs : List (List Listing)) (acc : List Listing),
      (idsOf acc).Nodup → (idsOf (buildRepsGo limit acc gs)).Nodup := by
  intro gs
  induction gs with
  | nil => intro acc h; simpa [buildRepsGo] using h
  | cons g gs ih =>
    intro acc h
    simp only [buildRepsGo]
    apply ih
    cases g with
    | nil => exact h
    | cons z zt =>
      dsimp only
      split_ifs with hcond
      · have hz : z.id ∉ acc.map (·.id) := by simpa using hcond.2
        simp only [idsOf, List.map_append, List.map_cons, List.map_nil] at h ⊢
        rw [List.nodup_append]
        refine ⟨h, List.nodup_singleton _, ?_⟩
        intro a ha hb
        simp only [List.mem_singleton] at hb
        exact hz (hb ▸ ha)
      · exact h

theorem buildReps_subset (limit : ℕ) (tokens : List String)
    (l : List Listing) (x : Listing)
    (h : x ∈ buildReps limit (tokens.eraseDups.map (groupFor tokens l))) :
    x ∈ l := by
  rcases buildRepsGo_subset limit _ [] x h with h9 | ⟨g, hg, hxg⟩
  · simp at h9
  · obtain ⟨t, _, rfl⟩ := List.mem_map.mp hg
    exact (List.mem_filter.mp hxg).1

theorem buildReps_ids_nodup (limit : ℕ) (groups : List (List Listing)) :
    (idsOf (buildReps limit groups)).Nodup :=
  buildRepsGo_ids_nodup limit groups [] (by simp [idsOf])

theorem diversityStep_subset (c : Criteria) (limit : ℕ) (l : List Listing)
    (x : Listing) (h : x ∈ diversityStep c limit l) : x ∈ l := by
  unfold diversityStep at h
  dsimp only at h
  split_ifs at h with h1 h2 h3
  · rcases fillUp_subset limit l _ x h with h9 | h9
    · exact buildReps_subset limit _ l x h9
    · exact h9
  · exact h
  · exact h
  · exact h

theorem diversityStep_ids_nodup (c : Criteria) (limit : ℕ) (l : List Listing)
    (hn : (idsOf l).Nodup) : (idsOf (diversityStep c limit l)).Nodup := by
  unfold diversityStep
  dsimp only
  split_ifs with h1 h2 h3
  · exact fillUp_ids_nodup limit l _ (buildReps_ids_nodup limit _)
  · exact hn
  · exact hn
  · exact hn

theorem diversityStep_perm (c : Criteria) (limit : ℕ) (l : List Listing)
    (hn : (idsOf l).Nodup) (hlen : l.length ≤ limit) :
    (diversityStep c limit l).Perm l := by
  unfold diversityStep
  dsimp only
  split_ifs with h1 h2 h3
  · have hAsub : ∀ x ∈ buildReps limit
        ((locationTokensOf c).eraseDups.map (groupFor (locationTokensOf c) l)),
        x ∈ l := fun x hx => buildReps_subset limit _ l x hx
    have hAnodup := buildReps_ids_nodup limit
      ((locationTokensOf c).eraseDups.map (groupFor (locationTokensOf c) l))
    have hDnodup := fillUp_ids_nodup limit l _ hAnodup
    have hDsub : ∀ x ∈ fillUp limit (buildReps limit
        ((locationTokensOf c).eraseDups.map (groupFor (locationTokensOf c) l))) l,
        x ∈ l := by
      intro x hx
      rcases fillUp_subset limit l _ x hx with h9 | h9
      · exact hAsub x h9
      · exact h9
    have hcount := acc_filter_count_le (buildReps limit
      ((locationTokensOf c).eraseDups.map (groupFor (locationTokensOf c) l))) l
      hAsub hAnodup
    have hcompl : ∀ x ∈ l, x ∈ fillUp limit (buildReps limit
        ((locationTokensOf c).eraseDups.map (groupFor (locationTokensOf c) l))) l := by
      intro x hx
      obtain ⟨y, hy, hyid⟩ := fillUp_complete limit l _ (le_trans hcount hlen) x hx
      have hyl : y ∈ l := hDsub y hy
      have hn' : (l.map (fun p : Listing => p.id)).Nodup := hn
      have heq : y = x := List.inj_on_of_nodup_map hn' hyl hx hyid
      exact heq ▸ hy
    exact List.Subperm.antisymm
      (List.Nodup.subperm (List.Nodup.of_map _ hDnodup) hDsub)
      (List.Nodup.subperm (List.Nodup.of_map _ hn) hcompl)
  · exact List.Perm.refl _
  · exact List.Perm.refl _
  · exact List.Perm.refl _

theorem strictPred_tagDist (c : Criteria) (ex : List String) (y : Listing)
    (d : ℚ) : strictPred c ex (tagDist y d) = strictPred c ex y := rfl

theorem amenityRelaxedPred_tagDist (c : Criteria) (ex : List String)
    (y : Listing) (d : ℚ) :
    amenityRelaxedPred c ex (tagDist y d) = amenityRelaxedPred c ex y := rfl

theorem priceRelaxedPred_tagDist (c : Criteria) (ex : List String)
    (y : Listing) (d : ℚ) :
    priceRelaxedPred c ex (tagDist y d) = priceRelaxedPred c ex y := rfl

theorem geoBasePred_tagDist (c : Criteria) (ex : List String) (y : Listing)
    (d : ℚ) : geoBasePred c ex (tagDist y d) = geoBasePred c ex y := rfl

theorem tagDist_location (y : Listing) (d : ℚ) :
    (tagDist y d).location = y.location := rfl

theorem tagDist_tagDist (y : Listing) (d : ℚ) :
    tagDist (tagDist y d) d = tagDist y d := rfl

theorem filterMap_id_of_mem {α : Type} (f : α → Option α) :
    ∀ (l : List α), (∀ x ∈ l, f x = some x) → l.filterMap f = l := by
  intro l
  induction l with
  | nil => intro _; rfl
  | cons x xs ih =>
    intro h
    rw [List.filterMap_cons, h x (List.mem_cons_self _ _),
      ih (fun y hy => h y (List.mem_cons_of_mem _ hy))]

/-- Membership characterization of the geo pass body. -/
theorem geoPass_mem (dist : Dist) (c : Criteria) (ex : List String)
    (coords : GeoResult) (items : List Listing) (x : Listing) :
    x ∈ geoPass dist c ex coords items ↔
      ∃ p ∈ items, geoBasePred c ex p = true ∧
        ∃ pt, p.location = some pt ∧ pt.latitude ≠ 0 ∧ pt.longitude ≠ 0 ∧
          dist ⟨coords.latitude, coords.longitude⟩ pt ≤ 100 ∧
          x = tagDist p (dist ⟨coords.latitude, coords.longitude⟩ pt) := by
  unfold geoPass
  rw [List.mem_filterMap]
  constructor
  · rintro ⟨p, hp, hf⟩
    refine ⟨p, hp, ?_⟩
    by_cases hb : geoBasePred c ex p = true
    · rw [if_pos hb] at hf
      cases hloc : p.location with
      | none => rw [hloc] at hf; simp at hf
      | some pt =>
        rw [hloc] at hf
        dsimp only at hf
        by_cases hco : pt.latitude ≠ 0 ∧ pt.longitude ≠ 0
        · rw [if_pos hco] at hf
          by_cases hd : dist ⟨coords.latitude, coords.longitude⟩ pt ≤ 100
          · rw [if_pos hd] at hf
            exact ⟨hb, pt, rfl, hco.1, hco.2, hd, (Option.some_inj.mp hf).symm⟩
          · rw [if_neg hd] at hf; simp at hf
        · rw [if_neg hco] at hf; simp at hf
    · rw [if_neg hb] at hf; simp at hf
  · rintro ⟨p, hp, hb, pt, hloc, hlat, hlon, hd, hx⟩
    refine ⟨p, hp, ?_⟩
    rw [if_pos hb, hloc]
    dsimp only
    rw [if_pos ⟨hlat, hlon⟩, if_pos hd, hx]

theorem cascade_nil (dist : Dist) (c : Criteria) (ex : List String)
    (qc : Option GeoResult) : cascadeCandidates dist c ex qc [] = [] := by
  have h1 : strictResults c ex ([] : List Listing) = [] := rfl
  have h2 : amenityRelaxedResults c ex ([] : List Listing) = [] := by
    unfold amenityRelaxedResults
    split_ifs <;> rfl
  have h3 : priceRelaxedResults c ex ([] : List Listing) = [] := by
    unfold priceRelaxedResults
    split_ifs <;> rfl
  have h4 : geoResults dist c ex qc ([] : List Listing) = [] := by
    cases qc with
    | none => rfl
    | some coords =>
      simp only [geoResults]
      split_ifs <;> rfl
  simp [cascadeCandidates, h1, h2, h3, h4]

/-- Re-running the cascade on any selection of its own output returns that
selection unchanged: the same pass fires again and keeps every element. -/
theorem cascade_idem_aux (dist : Dist) (c : Criteria) (ex : List String)
    (qc : Option GeoResult) (items O : List Listing)
    (hsub : ∀ x ∈ O, x ∈ cascadeCandidates dist c ex qc items) :
    cascadeCandidates dist c ex qc O = O := by
  by_cases hO : O = []
  · rw [hO]
    exact cascade_nil dist c ex qc
  by_cases e1 : strictResults c ex items = []
  case neg =>
    -- strict pass fired on `items`
    have hs2i : amenityRelaxedResults c ex items = [] := by
      unfold amenityRelaxedResults
      rw [if_neg (by intro hng; exact e1 hng.2.1)]
    have hs3i : priceRelaxedResults c ex items = [] := by
      unfold priceRelaxedResults
      rw [if_neg (by intro hng; exact e1 (List.append_eq_nil.mp hng.2.1).1)]
    have hs4i : geoResults dist c ex qc items = [] := by
      cases qc with
      | none => rfl
      | some coords =>
        simp only [geoResults]
        rw [if_neg (by
          intro hng
          exact e1 (List.append_eq_nil.mp
            (List.append_eq_nil.mp hng.2.1).1).1)]
    have hOmem : ∀ x ∈ O, x ∈ items.filter (strictPred c ex) := by
      intro x hx
      have h9 := hsub x hx
      unfold cascadeCandidates strictResults at h9
      rw [hs2i, hs3i, hs4i] at h9
      simpa using h9
    have hs1O : strictResults c ex O = O := by
      rw [strictResults, List.filter_eq_self]
      intro x hx
      exact List.of_mem_filter (hOmem x hx)
    have hs2O : amenityRelaxedResults c ex O = [] := by
      unfold amenityRelaxedResults
      rw [if_neg (by intro hng; rw [hs1O] at hng; exact hO hng.2.1)]
    have hs3O : priceRelaxedResults c ex O = [] := by
      unfold priceRelaxedResults
      rw [if_neg (by
        intro hng
        rw [hs1O, hs2O] at hng
        simp only [List.append_nil] at hng
        exact hO hng.2.1)]
    have hs4O : geoResults dist c ex qc O = [] := by
      cases qc with
      | none => rfl
      | some coords =>
        simp only [geoResults]
        rw [if_neg (by
          intro hng
          rw [hs1O, hs2O, hs3O] at hng
          simp only [List.append_nil] at hng
          exact hO hng.2.1)]
    unfold cascadeCandidates
    rw [hs1O, hs2O, hs3O, hs4O]
    simp
  case pos =>
  by_cases e2 : amenityRelaxedResults c ex items = []
  case neg =>
    -- amenity-relaxed pass fired on `items`
    have hg : locationTokensOf c ≠ [] ∧ strictResults c ex items = [] ∧
        amenityFiltersOf c ≠ [] := by
      by_contra hng
      apply e2
      unfold amenityRelaxedResults
      rw [if_neg hng]
    have h2eq : amenityRelaxedResults c ex items =
        items.filter (amenityRelaxedPred c ex) := by
      unfold amenityRelaxedResults
      rw [if_pos hg]
    have hs3i : priceRelaxedResults c ex items = [] := by
      unfold priceRelaxedResults
      rw [if_neg (by intro hng; exact e2 (List.append_eq_nil.mp hng.2.1).2)]
    have hs4i : geoResults dist c ex qc items = [] := by
      cases qc with
      | none => rfl
      | some coords =>
        simp only [geoResults]
        rw [if_neg (by
          intro hng
          exact e2 (List.append_eq_nil.mp
            (List.append_eq_nil.mp hng.2.1).1).2)]
    have hOmem : ∀ x ∈ O, x ∈ items.filter (amenityRelaxedPred c ex) := by
      intro x hx
      have h9 := hsub x hx
      unfold cascadeCandidates at h9
      rw [e1, hs3i, hs4i, h2eq] at h9
      simpa using h9
    have hnostrict := List.filter_eq_nil.mp (e1 :
      items.filter (strictPred c ex) = [])
    have hs1O : strictResults c ex O = [] := by
      rw [strictResults, List.filter_eq_nil]
      intro x hx
      exact hnostrict x (List.mem_of_mem_filter (hOmem x hx))
    have hs2O : amenityRelaxedResults c ex O = O := by
      unfold amenityRelaxedResults
      rw [if_pos ⟨hg.1, hs1O, hg.2.2⟩, List.filter_eq_self]
      intro x hx
      exact List.of_mem_filter (hOmem x hx)
    have hs3O : priceRelaxedResults c ex O = [] := by
      unfold priceRelaxedResults
      rw [if_neg (by
        intro hng
        rw [hs1O, hs2O] at hng
        simp only [List.nil_append] at hng
        exact hO hng.2.1)]
    have hs4O : geoResults dist c ex qc O = [] := by
      cases qc with
      | none => rfl
      | some coords =>
        simp only [geoResults]
        rw [if_neg (by
          intro hng
          rw [hs1O, hs2O, hs3O] at hng
          simp only [List.nil_append, List.append_nil] at hng
          exact hO hng.2.1)]
    unfold cascadeCandidates
    rw [hs1O, hs2O, hs3O, hs4O]
    simp
  case pos =>
  by_cases e3 : priceRelaxedResults c ex items = []
  case neg =>
    -- price-relaxed pass fired on `items`
    have hg : locationTokensOf c ≠ [] ∧
        strictResults c ex items ++ amenityRelaxedResults c ex items = [] ∧
        c.min_price ≠ none ∧ c.max_price ≠ none := by
      by_contra hng
      apply e3
      unfold priceRelaxedResults
      rw [if_neg hng]
    have h3eq : priceRelaxedResults c ex items =
        items.filter (priceRelaxedPred c ex) := by
      unfold priceRelaxedResults
      rw [if_pos hg]
    have hs4i : geoResults dist c ex qc items = [] := by
      cases qc with
      | none => rfl
      | some coords =>
        simp only [geoResults]
        rw [if_neg (by
          intro hng
          exact e3 (List.append_eq_nil.mp hng.2.1).2)]
    have hOmem : ∀ x ∈ O, x ∈ items.filter (priceRelaxedPred c ex) := by
      intro x hx
      have h9 := hsub x hx
      unfold cascadeCandidates at h9
      rw [e1, e2, hs4i, h3eq] at h9
      simpa using h9
    have hnostrict := List.filter_eq_nil.mp (e1 :
      items.filter (strictPred c ex) = [])
    have hs1O : strictResults c ex O = [] := by
      rw [strictResults, List.filter_eq_nil]
      intro x hx
      exact hnostrict x (List.mem_of_mem_filter (hOmem x hx))
    have hs2O : amenityRelaxedResults c ex O = [] := by
      unfold amenityRelaxedResults
      split_ifs with hgd
      · have h2run : items.filter (amenityRelaxedPred c ex) = [] := by
          have h2g := e2
          unfold amenityRelaxedResults at h2g
          rwa [if_pos ⟨hg.1, e1, hgd.2.2⟩] at h2g
        rw [List.filter_eq_nil]
        intro x hx
        exact List.filter_eq_nil.mp h2run x
          (List.mem_of_mem_filter (hOmem x hx))
      · rfl
    have hs3O : priceRelaxedResults c ex O = O := by
      unfold priceRelaxedResults
      rw [if_pos ⟨hg.1, by rw [hs1O, hs2O]; rfl, hg.2.2.1, hg.2.2.2⟩,
        List.filter_eq_self]
      intro x hx
      exact List.of_mem_filter (hOmem x hx)
    have hs4O : geoResults dist c ex qc O = [] := by
      cases qc with
      | none => rfl
      | some coords =>
        simp only [geoResults]
        rw [if_neg (by
          intro hng
          rw [hs1O, hs2O, hs3O] at hng
          simp only [List.nil_append, List.append_nil] at hng
          exact hO hng.2.1)]
    unfold cascadeCandidates
    rw [hs1O, hs2O, hs3O, hs4O]
    simp
  case pos =>
  by_cases e4 : geoResults dist c ex qc items = []
  · -- nothing fired: O must be empty, contradiction
    exfalso
    obtain ⟨x, hx⟩ := List.exists_mem_of_ne_nil O hO
    have h9 := hsub x hx
    unfold cascadeCandidates at h9
    rw [e1, e2, e3, e4] at h9
    simp at h9
  · -- geo pass fired on `items`
    have hgsome : ∃ coords, qc = some coords := by
      cases hqc : qc with
      | none => rw [hqc] at e4; exact absurd rfl e4
      | some coords => exact ⟨coords, rfl⟩
    obtain ⟨coords, hqc⟩ := hgsome
    subst hqc
    have hg : locationTokensOf c ≠ [] ∧
        strictResults c ex items ++ amenityRelaxedResults c ex items ++
          priceRelaxedResults c ex items = [] ∧
        isNearbyQuery c.query = true := by
      by_contra hng
      apply e4
      simp only [geoResults]
      rw [if_neg hng]
    have h4eq : geoResults dist c ex (some coords) items =
        geoPass dist c ex coords items := by
      simp only [geoResults]
      rw [if_pos hg]
    have hOdata : ∀ x ∈ O, ∃ p ∈ items, geoBasePred c ex p = true ∧
        ∃ pt, p.location = some pt ∧ pt.latitude ≠ 0 ∧ pt.longitude ≠ 0 ∧
          dist ⟨coords.latitude, coords.longitude⟩ pt ≤ 100 ∧
          x = tagDist p (dist ⟨coords.latitude, coords.longitude⟩ pt) := by
      intro x hx
      have h9 := hsub x hx
      unfold cascadeCandidates at h9
      rw [e1, e2, e3, h4eq] at h9
      simp only [List.nil_append] at h9
      exact (geoPass_mem dist c ex coords items x).mp h9
    have hnostrict := List.filter_eq_nil.mp (e1 :
      items.filter (strictPred c ex) = [])
    have hs1O : strictResults c ex O = [] := by
      rw [strictResults, List.filter_eq_nil]
      intro x hx
      obtain ⟨p, hp, _, pt, _, _, _, _, hxeq⟩ := hOdata x hx
      rw [hxeq, strictPred_tagDist]
      exact hnostrict p hp
    have hs2O : amenityRelaxedResults c ex O = [] := by
      unfold amenityRelaxedResults
      split_ifs with hgd
      · have h2run : items.filter (amenityRelaxedPred c ex) = [] := by
          have h2g := e2
          unfold amenityRelaxedResults at h2g
          rwa [if_pos ⟨hg.1, e1, hgd.2.2⟩] at h2g
        rw [List.filter_eq_nil]
        intro x hx
        obtain ⟨p, hp, _, pt, _, _, _, _, hxeq⟩ := hOdata x hx
        rw [hxeq, amenityRelaxedPred_tagDist]
        exact List.filter_eq_nil.mp h2run p hp
      · rfl
    have hs3O : priceRelaxedResults c ex O = [] := by
      unfold priceRelaxedResults
      split_ifs with hgd
      · have h12 : strictResults c ex items ++
            amenityRelaxedResults c ex items = [] :=
          (List.append_eq_nil.mp hg.2.1).1
        have h3run : items.filter (priceRelaxedPred c ex) = [] := by
          have h3g := e3
          unfold priceRelaxedResults at h3g
          rwa [if_pos ⟨hg.1, h12, hgd.2.2.1, hgd.2.2.2⟩] at h3g
        rw [List.filter_eq_nil]
        intro x hx
        obtain ⟨p, hp, _, pt, _, _, _, _, hxeq⟩ := hOdata x hx
        rw [hxeq, priceRelaxedPred_tagDist]
        exact List.filter_eq_nil.mp h3run p hp
      · rfl
    have hs4O : geoResults dist c ex (some coords) O = O := by
      simp only [geoResults]
      rw [if_pos ⟨hg.1, by rw [hs1O, hs2O, hs3O]; rfl, hg.2.2⟩]
      unfold geoPass
      apply filterMap_id_of_mem
      intro x hx
      obtain ⟨p, hp, hb, pt, hloc, hlat, hlon, hd, hxeq⟩ := hOdata x hx
      rw [hxeq, geoBasePred_tagDist, if_pos hb, tagDist_location, hloc]
      dsimp only
      rw [if_pos ⟨hlat, hlon⟩, if_pos hd, tagDist_tagDist]
    unfold cascadeCandidates
    rw [hs1O, hs2O, hs3O, hs4O]
    simp

/-- C9: the filter engine is idempotent at the level of result sets —
re-filtering its own (capped, pre-slim) output with the same criteria,
exclusions, limit, geocoder and distance function yields exactly the same
set of listings, with no further narrowing. -/
theorem C9_idempotent (dist : Dist) (geocode : Geocoder)
    (items : List Listing) (c : Criteria) (ex : List String) (limit : ℕ) :
    ∀ x, (x ∈ (filterPipeline dist geocode
        ((filterPipeline dist geocode items c ex limit).capped)
        c ex limit).capped ↔
      x ∈ (filterPipeline dist geocode items c ex limit).capped) := by
  intro x
  have hcap : ∀ its : List Listing,
      (filterPipeline dist geocode its c ex limit).capped =
      (diversityStep c limit (applySort c (dedupById
        (cascadeCandidates dist c ex ((firstLocationOf c).bind geocode)
          its)))).take (min limit 12) := fun _ => rfl
  have hOsub : ∀ y ∈ (filterPipeline dist geocode items c ex limit).capped,
      y ∈ cascadeCandidates dist c ex ((firstLocationOf c).bind geocode)
        items := by
    intro y hy
    rw [hcap items] at hy
    have h1 := List.take_subset _ _ hy
    have h2 := diversityStep_subset c limit _ y h1
    have h3 := (applySort_perm c _).mem_iff.mp h2
    exact dedupById_subset _ y h3
  have hOids : (idsOf
      ((filterPipeline dist geocode items c ex limit).capped)).Nodup := by
    rw [hcap items]
    have hd : ((dedupById (cascadeCandidates dist c ex
        ((firstLocationOf c).bind geocode) items)).map
        (fun p : Listing => p.id)).Nodup :=
      dedupById_ids_nodup _
    have hs : (idsOf (applySort c (dedupById (cascadeCandidates dist c ex
        ((firstLocationOf c).bind geocode) items)))).Nodup :=
      (((applySort_perm c _).map (fun p : Listing => p.id)).nodup_iff).mpr hd
    have hdv := diversityStep_ids_nodup c limit _ hs
    have hsub2 : (idsOf ((diversityStep c limit (applySort c (dedupById
        (cascadeCandidates dist c ex ((firstLocationOf c).bind geocode)
          items)))).take (min limit 12))).Sublist
        (idsOf (diversityStep c limit (applySort c (dedupById
        (cascadeCandidates dist c ex ((firstLocationOf c).bind geocode)
          items))))) := by
      unfold idsOf
      rw [List.map_take]
      exact List.take_sublist _ _
    exact List.Nodup.sublist hsub2 hdv
  have hOlen : (filterPipeline dist geocode items c ex limit).capped.length ≤
      min limit 12 := by
    rw [hcap items]
    exact List.length_take_le _ _
  have hcasO := cascade_idem_aux dist c ex ((firstLocationOf c).bind geocode)
    items ((filterPipeline dist geocode items c ex limit).capped) hOsub
  rw [hcap ((filterPipeline dist geocode items c ex limit).capped), hcasO,
    dedupById_eq_self _ hOids]
  have hsp := applySort_perm c
    ((filterPipeline dist geocode items c ex limit).capped)
  have hOids2 : (((filterPipeline dist geocode items c ex limit).capped).map
      (fun p : Listing => p.id)).Nodup := hOids
  have hnodS : (idsOf (applySort c
      ((filterPipeline dist geocode items c ex limit).capped))).Nodup :=
    ((hsp.map (fun p : Listing => p.id)).nodup_iff).mpr hOids2
  have hlim : (applySort c
      ((filterPipeline dist geocode items c ex limit).capped)).length ≤
      limit := by
    rw [hsp.length_eq]
    exact le_trans hOlen (min_le_left _ _)
  have hdp := diversityStep_perm c limit _ hnodS hlim
  have hdlen : (diversityStep c limit (applySort c
      ((filterPipeline dist geocode items c ex limit).capped))).length ≤
      min limit 12 := by
    rw [hdp.length_eq, hsp.length_eq]
    exact hOlen
  rw [List.take_of_length_le hdlen]
  exact (hdp.trans hsp).mem_iff

end PropSearch
